import Mathlib

/-!
Shallow embedding of the ocs-operator failure-domain selection logic
(`determineFailureDomain`, `determinePlacementRack`, `ensureNodeRacks`,
`reconcileNodeTopologyMap`, `filterDeprecatedLabels` from the storagecluster
package, and `CompareStringSlices` from controllers/util/strings.go).

Go maps are embedded as association lists (`List (String × List String)`),
with list order standing for iteration order; a `nil` Go slice is `none` and a
non-`nil` slice is `some`.  Strings are compared byte-wise exactly as Go's
`sort.Strings` does, via an executable lexicographic order on the character
lists.
-/

namespace OcsTopology

/-- Byte-wise lexicographic "less or equal" on character lists, mirroring
the ordering used by Go's `sort.Strings`. -/
def lexLeB : List Char → List Char → Bool
  | [], _ => true
  | _ :: _, [] => false
  | a :: as, b :: bs =>
    if a.toNat < b.toNat then true
    else if b.toNat < a.toNat then false
    else lexLeB as bs

/-- Byte-wise lexicographic "less or equal" on strings. -/
def strLeB (a b : String) : Bool := lexLeB a.data b.data

/-- Substring test on character lists (`strings.Contains` semantics). -/
def charListContains (hay needle : List Char) : Bool :=
  match hay with
  | [] => needle.isEmpty
  | _ :: t => needle.isPrefixOf hay || charListContains t needle

/-- Go's `strings.Contains s sub`. -/
def strContains (s sub : String) : Bool := charListContains s.data sub.data

/-- Insert a string into a (sorted) list, keeping byte-wise order. -/
def insertSorted (x : String) : List String → List String
  | [] => [x]
  | y :: t => if strLeB x y then x :: y :: t else y :: insertSorted x t

/-- Insertion sort by byte-wise order; the embedding of Go's `sort.Strings`. -/
def sortStrings : List String → List String
  | [] => []
  | x :: t => insertSorted x (sortStrings t)

/-- An association list embedding of Go's `map[string]TopologyLabelValues`. -/
abbrev LabelMap := List (String × List String)

/-- Look up a key in a label map (first matching entry), `none` for a missing
key — Go's `m[k]` returning a `nil` slice. -/
def lookupVals : LabelMap → String → Option (List String)
  | [], _ => none
  | (k', vs) :: t, k => if k' = k then some vs else lookupVals t k

/-- The `ocsv1.NodeTopologyMap` structure: label key → observed values. -/
structure NodeTopologyMap where
  Labels : LabelMap
deriving DecidableEq, Repr

/-- A Kubernetes node: a name and its label set (iteration order fixed by the
list). -/
structure Node where
  name : String
  labels : List (String × String)
deriving DecidableEq, Repr

/-- The `failureDomain` result struct of `determineFailureDomain` (the Go
field `Type` is a Lean keyword, hence `dtype`). -/
structure FailureDomain where
  dtype : String
  key : String
  values : List String
deriving DecidableEq, Repr

/-- CompareStringSlices from controllers/util/strings.go: element loop. -/
def cmpElems : List String → List String → Bool
  | [], [] => true
  | a :: as, b :: bs => if a ≠ b then false else cmpElems as bs
  | _, _ => false

/-- CompareStringSlices returns true if two string slices are of the same
length and have the values in the same order; a `nil` slice (`none`) is only
equal to another `nil` slice. -/
def CompareStringSlices (a b : Option (List String)) : Bool :=
  match a, b with
  | none, none => true
  | some la, some lb => if la.length ≠ lb.length then false else cmpElems la lb
  | _, _ => false

/-- Modelled from the spec: the fixed allow-list of recognized topology label
key substrings (`validTopologyLabelKeys`), variants of the kubernetes
topology naming schemes; the Go definition is not part of this fragment. -/
def validTopologyLabelKeys : List String :=
  ["topology.kubernetes.io", "failure-domain.beta.kubernetes.io",
   "failure-domain.kubernetes.io"]

/-- Modelled from the spec: the rack label key (`defaults.RackTopologyKey`)
used when synthesizing rack assignments; its exact value is external to this
fragment, what matters is that it contains "rack". -/
def RackTopologyKey : String := "topology.rook.io/rack"

/-- Modelled from the spec: `NodeTopologyMap.Contains(key, value)` — the
value set under `key` contains `value`. -/
def NodeTopologyMap.Contains (m : NodeTopologyMap) (k v : String) : Bool :=
  match lookupVals m.Labels k with
  | some vs => vs.contains v
  | none => false

/-- Append `v` to the entry of `k` (creating the entry if missing). -/
def addValue : LabelMap → String → String → LabelMap
  | [], k, v => [(k, [v])]
  | (k', vs) :: t, k, v =>
    if k' = k then (k', vs ++ [v]) :: t else (k', vs) :: addValue t k v

/-- Modelled from the spec: `NodeTopologyMap.Add(key, value)` — ensure the
value set under `key` contains `value`; a no-op if already present. -/
def NodeTopologyMap.Add (m : NodeTopologyMap) (k v : String) : NodeTopologyMap :=
  if m.Contains k v then m else ⟨addValue m.Labels k v⟩

/-- Modelled from the spec: `NodeTopologyMap.GetKeyValues(domainType)` — scan
the keys for the first whose name contains the requested substring, return
that key with its values sorted; an empty key and empty values if none
matches. -/
def NodeTopologyMap.GetKeyValues (m : NodeTopologyMap) (dtype : String) :
    String × List String :=
  match m.Labels.find? (fun e => strContains e.1 dtype) with
  | some e => (e.1, sortStrings e.2)
  | none => ("", [])

/-- The deprecated and canonical topology label keys named in
`filterDeprecatedLabels`. -/
def betaZoneKey : String := "failure-domain.beta.kubernetes.io/zone"

/-- Deprecated zone key of the `failure-domain.kubernetes.io` scheme. -/
def fdZoneKey : String := "failure-domain.kubernetes.io/zone"

/-- Canonical zone key. -/
def topoZoneKey : String := "topology.kubernetes.io/zone"

/-- Deprecated region key of the beta scheme. -/
def betaRegionKey : String := "failure-domain.beta.kubernetes.io/region"

/-- Deprecated region key of the `failure-domain.kubernetes.io` scheme. -/
def fdRegionKey : String := "failure-domain.kubernetes.io/region"

/-- Canonical region key. -/
def topoRegionKey : String := "topology.kubernetes.io/region"

/-- Sort (in place) the value list stored under key `k`; Go's
`sort.Strings(m[k])`, a no-op on a missing key. -/
def sortValsAt (k : String) (l : LabelMap) : LabelMap :=
  l.map (fun e => if e.1 = k then (e.1, sortStrings e.2) else e)

/-- Remove the entry of key `k`; Go's `delete(m, k)`. -/
def deleteKey (k : String) (l : LabelMap) : LabelMap :=
  l.filter (fun e => e.1 != k)

/-- The six in-place value sorts at the head of filterDeprecatedLabels, in
source order. -/
def sortedSixStage (l : LabelMap) : LabelMap :=
  sortValsAt topoRegionKey (sortValsAt fdRegionKey (sortValsAt betaRegionKey
    (sortValsAt topoZoneKey (sortValsAt fdZoneKey (sortValsAt betaZoneKey l)))))

/-- One conditional delete of filterDeprecatedLabels: drop the deprecated key
when its value list completely matches the canonical key's. -/
def deleteIfMatch (dep canon : String) (l : LabelMap) : LabelMap :=
  if CompareStringSlices (lookupVals l dep) (lookupVals l canon) then
    deleteKey dep l
  else l

/-- filterDeprecatedLabels removes the old zone/region labels from the
topology map when their (sorted) value lists completely match the canonical
label's, in the exact order of the Go source: sort the six key's values, then
conditionally delete beta zone, beta region, failure-domain zone and
failure-domain region. -/
def filterDeprecatedLabels (m : NodeTopologyMap) : NodeTopologyMap :=
  ⟨deleteIfMatch fdRegionKey topoRegionKey
    (deleteIfMatch fdZoneKey topoZoneKey
      (deleteIfMatch betaRegionKey topoRegionKey
        (deleteIfMatch betaZoneKey topoZoneKey (sortedSixStage m.Labels))))⟩

/-- The rack name synthesized for index `j`: Go's
`fmt.Sprintf("rack%d", j)`. -/
def mkRackName (j : Nat) : String := "rack" ++ toString j

/-- The inner loop of rack synthesis: the first of rack0..racki that is not
yet a key of the map. -/
def firstFreeRack (l : LabelMap) (i : Nat) : Option String :=
  match (List.range (i + 1)).find? (fun j => (lookupVals l (mkRackName j)).isNone) with
  | some j => some (mkRackName j)
  | none => none

/-- The outer synthesis loop of determinePlacementRack: the counter `i` runs
from the initial number of racks up to `minRacks - 1`, adding (at most) one
fresh empty rack per iteration. -/
def synthesizeLoop : LabelMap → Nat → Nat → LabelMap
  | l, _, 0 => l
  | l, i, fuel + 1 =>
    match firstFreeRack l i with
    | some r => synthesizeLoop (l ++ [(r, [])]) (i + 1) fuel
    | none => synthesizeLoop l (i + 1) fuel

/-- Does a node label key match one of the valid topology keys and contain
"zone"? -/
def isTopologyZoneLabel (k : String) : Bool :=
  validTopologyLabelKeys.any (fun key => strContains k key && strContains k "zone")

/-- The target-zone scan of determinePlacementRack over a node's own labels:
the value of the first zone-matching label with a non-empty value (the Go
loop keeps scanning while `targetAZ` is still empty). -/
def findTargetAZ (labels : List (String × String)) : String :=
  match labels.find? (fun p => isTopologyZoneLabel p.1 && !(p.2 == "")) with
  | some p => p.2
  | none => ""

/-- Does node `n` carry some zone-matching label whose value is `az`? -/
def nodeHasZoneValue (n : Node) (az : String) : Bool :=
  n.labels.any (fun p =>
    validTopologyLabelKeys.any (fun key =>
      strContains p.1 key && strContains p.1 "zone" && p.2 == az))

/-- The first node of the list carrying the given name (Go's linear scan with
`break` after the first match). -/
def firstNodeNamed (nodes : List Node) (nm : String) : Option Node :=
  nodes.find? (fun n => n.name == nm)

/-- The member-validation of determinePlacementRack: resolve the member name
to its node and check whether that node has a zone label valued `az`. -/
def memberMatchesAZ (nodes : List Node) (nm az : String) : Bool :=
  match firstNodeNamed nodes nm with
  | some n => nodeHasZoneValue n az
  | none => false

/-- The candidate rack list of determinePlacementRack: with a known target
zone only empty racks or racks with a matching member qualify; without one
every rack qualifies. -/
def candidateRacks (nodes : List Node) (az : String) (l : LabelMap) : List String :=
  if az.length > 0 then
    (l.filter (fun e =>
      e.2.isEmpty || e.2.any (fun nm => memberMatchesAZ nodes nm az))).map Prod.fst
  else l.map Prod.fst

/-- The member count of rack `r` (Go's `len(nodeRacks.Labels[r])`). -/
def rackLen (l : LabelMap) (r : String) : Nat := ((lookupVals l r).getD []).length

/-- The linear minimum scan of determinePlacementRack: keep the current best
rack, replace it only on a strictly smaller member count. -/
def pickMinRack (l : LabelMap) : List String → String → String
  | [], best => best
  | r :: rest, best =>
    pickMinRack l rest (if rackLen l r < rackLen l best then r else best)

/-- Sort the candidate list and scan for the rack with the fewest members;
`none` when the candidate list is empty (the Go code would panic on
`rackList[0]`). -/
def chooseRack (l : LabelMap) (cand : List String) : Option String :=
  match sortStrings cand with
  | [] => none
  | r0 :: rest => some (pickMinRack l (r0 :: rest) r0)

/-- determinePlacementRack: synthesize racks up to `minRacks`, compute the
target zone, build the candidate list and pick the least-loaded candidate.
Returns the updated rack map together with the chosen rack (`none` embeds the
Go index-out-of-range panic on an empty candidate list). -/
def determinePlacementRack (nodes : List Node) (node : Node) (minRacks : Nat)
    (nodeRacks : NodeTopologyMap) : NodeTopologyMap × Option String :=
  let l1 := synthesizeLoop nodeRacks.Labels nodeRacks.Labels.length
    (minRacks - nodeRacks.Labels.length)
  let targetAZ := findTargetAZ node.labels
  (⟨l1⟩, chooseRack l1 (candidateRacks nodes targetAZ l1))

/-- The first pass of ensureNodeRacks: collect the pre-existing rack labels
of all nodes into a fresh rack-membership map. -/
def collectExistingRacks (nodes : List Node) : NodeTopologyMap :=
  nodes.foldl (fun acc n =>
    n.labels.foldl (fun acc2 p =>
      if strContains p.1 "rack" then
        if acc2.Contains p.2 n.name then acc2 else acc2.Add p.2 n.name
      else acc2) acc) ⟨[]⟩

/-- Is the node name already recorded in some rack of the membership map? -/
def hasRackName (nr : NodeTopologyMap) (nm : String) : Bool :=
  nr.Labels.any (fun e => e.2.contains nm)

/-- The second pass of ensureNodeRacks: place every node that has no rack
yet, recording the assignment in the membership map and the rack value in the
persisted topology map; `none` embeds the placement panic. -/
def ensureLoop (nodes : List Node) (minRacks : Nat) :
    List Node → NodeTopologyMap → NodeTopologyMap →
    Option (NodeTopologyMap × NodeTopologyMap)
  | [], nr, tm => some (nr, tm)
  | n :: rest, nr, tm =>
    if hasRackName nr n.name then ensureLoop nodes minRacks rest nr tm
    else
      match determinePlacementRack nodes n minRacks nr with
      | (_, none) => none
      | (nr1, some rack) =>
        let nr2 := nr1.Add rack n.name
        let tm2 := if tm.Contains RackTopologyKey rack then tm
          else tm.Add RackTopologyKey rack
        ensureLoop nodes minRacks rest nr2 tm2

/-- ensureNodeRacks: collect existing rack labels, then assign a rack to
every unlabeled node.  Returns the final membership map and topology map
(`none` embeds the Go panic; patch emission is external and elided). -/
def ensureNodeRacks (nodes : List Node) (minRacks : Nat)
    (topologyMap : NodeTopologyMap) : Option (NodeTopologyMap × NodeTopologyMap) :=
  ensureLoop nodes minRacks nodes (collectExistingRacks nodes) topologyMap

/-- reconcileNodeTopologyMap: build the topology map from every node label
matching a valid topology key; fails when fewer than `minNodes` nodes are
supplied. -/
def reconcileNodeTopologyMap (minNodes : Nat) (nodes : List Node) :
    Except String NodeTopologyMap :=
  if nodes.length < minNodes then Except.error "Not enough nodes found"
  else Except.ok (nodes.foldl (fun acc n =>
    n.labels.foldl (fun acc2 p =>
      if validTopologyLabelKeys.any (fun key => strContains p.1 key) then
        if acc2.Contains p.1 p.2 then acc2 else acc2.Add p.1 p.2
      else acc2) acc) ⟨[]⟩)

/-- The storage cluster fields read by determineFailureDomain.  The fields
`arbiterEnabled` and `minimumNodes` are modelled from the spec: they embed
the results of the external helpers `arbiterEnabled(sc)` and
`getMinimumNodes(sc)` (the latter is passed both as the discovery minimum and
as the minimum rack count, as in the source). -/
structure StorageCluster where
  statusFailureDomain : String
  statusNodeTopologies : Option NodeTopologyMap
  flexibleScaling : Bool
  arbiterEnabled : Bool
  minimumNodes : Nat
deriving DecidableEq, Repr

/-- The zone-scanning loop of determineFailureDomain: some key containing
"zone" has at least 2 values with arbiter mode, or at least 3 without. -/
def zoneEligible (arbiter : Bool) (l : LabelMap) : Bool :=
  l.any (fun e => strContains e.1 "zone" &&
    ((decide (2 ≤ e.2.length) && arbiter) || decide (3 ≤ e.2.length)))

/-- determineFailureDomain: reconcile the topology map when unset, filter
deprecated labels, then choose the failure domain by the cached status, the
flexible-scaling override, zone eligibility, or the rack fallback, in that
order. -/
def determineFailureDomain (sc : StorageCluster) (nodes : List Node) :
    Except String FailureDomain :=
  let m0step : Except String NodeTopologyMap :=
    match sc.statusNodeTopologies with
    | some m => Except.ok m
    | none => reconcileNodeTopologyMap sc.minimumNodes nodes
  match m0step with
  | Except.error e => Except.error e
  | Except.ok m0 =>
    let m := filterDeprecatedLabels m0
    if sc.statusFailureDomain ≠ "" then
      let kv := m.GetKeyValues sc.statusFailureDomain
      Except.ok ⟨sc.statusFailureDomain, kv.1, kv.2⟩
    else if sc.flexibleScaling then
      let kv := m.GetKeyValues "host"
      Except.ok ⟨"host", kv.1, kv.2⟩
    else if zoneEligible sc.arbiterEnabled m.Labels then
      let kv := m.GetKeyValues "zone"
      Except.ok ⟨"zone", kv.1, kv.2⟩
    else
      match ensureNodeRacks nodes sc.minimumNodes m with
      | none => Except.error "Unable to assign rack labels"
      | some (_, m2) =>
        let kv := m2.GetKeyValues "rack"
        Except.ok ⟨"rack", kv.1, kv.2⟩

/-- The failure-domain type of a selector result (`none` for an error). -/
def fdTypeOf (r : Except String FailureDomain) : Option String :=
  match r with
  | Except.ok fd => some fd.dtype
  | Except.error _ => none

/-- The discoverable zone of a node name: resolve the name to the first node
carrying it and run the target-zone scan on that node's labels. -/
def zoneOfName (nodes : List Node) (nm : String) : String :=
  match firstNodeNamed nodes nm with
  | some n => findTargetAZ n.labels
  | none => ""

/-! ### Basic lemmas about the string utilities -/

theorem cmpElems_eq_true_iff (a b : List String) : cmpElems a b = true ↔ a = b := by
  induction a generalizing b with
  | nil => cases b <;> simp [cmpElems]
  | cons x xs ih =>
    cases b with
    | nil => simp [cmpElems]
    | cons y ys =>
      by_cases hxy : x = y
      · subst hxy
        simp [cmpElems, ih]
      · simp [cmpElems, hxy]

theorem CompareStringSlices_eq_true_iff (a b : Option (List String)) :
    CompareStringSlices a b = true ↔ a = b := by
  cases a with
  | none => cases b <;> simp [CompareStringSlices]
  | some la =>
    cases b with
    | none => simp [CompareStringSlices]
    | some lb =>
      by_cases hl : la.length = lb.length
      · simp [CompareStringSlices, hl, cmpElems_eq_true_iff]
      · have hne : la ≠ lb := fun h => hl (by rw [h])
        simp [CompareStringSlices, hl, hne]

theorem insertSorted_perm (x : String) (l : List String) :
    (insertSorted x l).Perm (x :: l) := by
  induction l with
  | nil => simp [insertSorted]
  | cons y t ih =>
    simp only [insertSorted]
    split
    · exact List.Perm.refl _
    · exact (ih.cons y).trans (List.Perm.swap x y t)

theorem sortStrings_perm (l : List String) : (sortStrings l).Perm l := by
  induction l with
  | nil => simp [sortStrings]
  | cons x t ih => exact (insertSorted_perm x (sortStrings t)).trans (ih.cons x)

theorem sortStrings_length (l : List String) : (sortStrings l).length = l.length :=
  (sortStrings_perm l).length_eq

theorem lexLeB_total (a b : List Char) : lexLeB a b = true ∨ lexLeB b a = true := by
  induction a generalizing b with
  | nil => left; rfl
  | cons x xs ih =>
    cases b with
    | nil => right; rfl
    | cons y ys =>
      rcases Nat.lt_trichotomy x.toNat y.toNat with h | h | h
      · left; simp [lexLeB, h]
      · rcases ih ys with h2 | h2
        · left; simp [lexLeB, h, h2]
        · right; simp [lexLeB, h, h2]
      · right; simp [lexLeB, h]

theorem strLeB_total (a b : String) : strLeB a b = true ∨ strLeB b a = true :=
  lexLeB_total a.data b.data

theorem lexLeB_refl (a : List Char) : lexLeB a a = true := by
  induction a with
  | nil => rfl
  | cons x xs ih => simp [lexLeB, ih]

theorem strLeB_refl (a : String) : strLeB a a = true := lexLeB_refl a.data

/-! ### Lemmas about label-map lookup through the filter pipeline -/

theorem lookupVals_cons_eq (k : String) (vs : List String) (t : LabelMap) :
    lookupVals ((k, vs) :: t) k = some vs := by
  simp [lookupVals]

theorem lookupVals_cons_ne {a k : String} (hne : a ≠ k) (vs : List String)
    (t : LabelMap) : lookupVals ((a, vs) :: t) k = lookupVals t k := by
  simp [lookupVals, hne]

theorem sortValsAt_cons (k' a : String) (vs : List String) (t : LabelMap) :
    sortValsAt k' ((a, vs) :: t) =
      (if a = k' then (a, sortStrings vs) else (a, vs)) :: sortValsAt k' t := rfl

theorem deleteKey_cons (k' a : String) (vs : List String) (t : LabelMap) :
    deleteKey k' ((a, vs) :: t) =
      if a = k' then deleteKey k' t else (a, vs) :: deleteKey k' t := by
  by_cases h : a = k' <;> simp [deleteKey, List.filter_cons, h]

theorem lookupVals_sortValsAt (k' k : String) (l : LabelMap) :
    lookupVals (sortValsAt k' l) k =
      if k = k' then (lookupVals l k).map sortStrings else lookupVals l k := by
  induction l with
  | nil =>
    simp only [sortValsAt, List.map_nil, lookupVals]
    split <;> rfl
  | cons e t ih =>
    obtain ⟨a, vs⟩ := e
    rw [sortValsAt_cons]
    by_cases hak : a = k'
    · by_cases hk : a = k
      · rw [if_pos hak, ← hk, lookupVals_cons_eq a (sortStrings vs), if_pos hak,
          lookupVals_cons_eq a vs]
        rfl
      · rw [if_pos hak, lookupVals_cons_ne hk (sortStrings vs) (sortValsAt k' t),
          lookupVals_cons_ne hk vs t]
        exact ih
    · by_cases hk : a = k
      · rw [if_neg hak, ← hk, lookupVals_cons_eq a vs, if_neg hak,
          lookupVals_cons_eq a vs]
      · rw [if_neg hak, lookupVals_cons_ne hk vs (sortValsAt k' t),
          lookupVals_cons_ne hk vs t]
        exact ih

theorem lookupVals_deleteKey (k' k : String) (l : LabelMap) :
    lookupVals (deleteKey k' l) k =
      if k = k' then none else lookupVals l k := by
  induction l with
  | nil =>
    simp only [deleteKey, List.filter_nil, lookupVals]
    split <;> rfl
  | cons e t ih =>
    obtain ⟨a, vs⟩ := e
    rw [deleteKey_cons]
    by_cases hak : a = k'
    · by_cases hk : a = k
      · rw [if_pos hak, ih, ← hk, if_pos hak, if_pos hak]
      · rw [if_pos hak, ih, lookupVals_cons_ne hk vs t]
    · by_cases hk : a = k
      · rw [if_neg hak, ← hk, lookupVals_cons_eq a vs, if_neg hak,
          lookupVals_cons_eq a vs]
      · rw [if_neg hak, lookupVals_cons_ne hk vs (deleteKey k' t), ih,
          lookupVals_cons_ne hk vs t]

theorem lookupVals_ite_deleteKey (c : Prop) [Decidable c] (k' k : String)
    (l : LabelMap) (hne : k ≠ k') :
    lookupVals (if c then deleteKey k' l else l) k = lookupVals l k := by
  split
  · rw [lookupVals_deleteKey, if_neg hne]
  · rfl

theorem lookupVals_mem {l : LabelMap} {k : String} {vs : List String}
    (h : lookupVals l k = some vs) : (k, vs) ∈ l := by
  induction l with
  | nil => simp [lookupVals] at h
  | cons e t ih =>
    obtain ⟨a, ws⟩ := e
    by_cases hak : a = k
    · subst hak
      rw [lookupVals_cons_eq] at h
      simp only [Option.some.injEq] at h
      subst h
      exact List.mem_cons_self _ _
    · rw [lookupVals_cons_ne hak] at h
      exact List.mem_cons_of_mem _ (ih h)

theorem lookupVals_of_mem_nodup {l : LabelMap} {k : String} {vs : List String}
    (hmem : (k, vs) ∈ l) (hnd : (l.map Prod.fst).Nodup) :
    lookupVals l k = some vs := by
  induction l with
  | nil => simp at hmem
  | cons e t ih =>
    obtain ⟨a, ws⟩ := e
    simp only [List.map_cons, List.nodup_cons] at hnd
    rcases List.mem_cons.mp hmem with h | h
    · cases h
      exact lookupVals_cons_eq k vs t
    · have hak : a ≠ k := by
        intro hak
        subst hak
        exact hnd.1 (List.mem_map.mpr ⟨(a, vs), h, rfl⟩)
      rw [lookupVals_cons_ne hak]
      exact ih h hnd.2

/-! ### Lookup through the filter stages -/

theorem lookupVals_deleteIfMatch_ne (dep canon k : String) (l : LabelMap)
    (h : k ≠ dep) : lookupVals (deleteIfMatch dep canon l) k = lookupVals l k := by
  unfold deleteIfMatch
  exact lookupVals_ite_deleteKey _ dep k l h

theorem lookupVals_deleteIfMatch_self (dep canon : String) (l : LabelMap) :
    lookupVals (deleteIfMatch dep canon l) dep =
      if CompareStringSlices (lookupVals l dep) (lookupVals l canon) then none
      else lookupVals l dep := by
  unfold deleteIfMatch
  split
  · rw [lookupVals_deleteKey, if_pos rfl]
  · rfl

theorem lookupVals_sortedSixStage_six (l : LabelMap) (k : String)
    (h : k = betaZoneKey ∨ k = fdZoneKey ∨ k = topoZoneKey ∨
      k = betaRegionKey ∨ k = fdRegionKey ∨ k = topoRegionKey) :
    lookupVals (sortedSixStage l) k = (lookupVals l k).map sortStrings := by
  unfold sortedSixStage
  rcases h with rfl | rfl | rfl | rfl | rfl | rfl <;>
    rw [lookupVals_sortValsAt, lookupVals_sortValsAt, lookupVals_sortValsAt,
      lookupVals_sortValsAt, lookupVals_sortValsAt, lookupVals_sortValsAt] <;>
    simp [betaZoneKey, fdZoneKey, topoZoneKey, betaRegionKey, fdRegionKey,
      topoRegionKey]

theorem lookupVals_len_sortedSixStage (l : LabelMap) (k : String) :
    (lookupVals (sortedSixStage l) k).map List.length =
      (lookupVals l k).map List.length := by
  unfold sortedSixStage
  rw [lookupVals_sortValsAt, lookupVals_sortValsAt, lookupVals_sortValsAt,
    lookupVals_sortValsAt, lookupVals_sortValsAt, lookupVals_sortValsAt]
  split_ifs <;> cases h : lookupVals l k <;> simp [sortStrings_length]

/-- The four (deprecated, canonical) key pairs treated by
filterDeprecatedLabels, in source order. -/
def depPairs : List (String × String) :=
  [(betaZoneKey, topoZoneKey), (betaRegionKey, topoRegionKey),
   (fdZoneKey, topoZoneKey), (fdRegionKey, topoRegionKey)]

/-- C10: CompareStringSlices returns true iff both arguments are nil, or
both are non-nil with equal length and equal contents; a nil slice and an
empty non-nil slice are reported as unequal. -/
theorem C10_compareStringSlices :
    (∀ a b : Option (List String), CompareStringSlices a b = true ↔
      (a = none ∧ b = none) ∨
      (∃ la lb, a = some la ∧ b = some lb ∧ la.length = lb.length ∧ la = lb)) ∧
    CompareStringSlices none (some []) = false := by
  constructor
  · intro a b
    rw [CompareStringSlices_eq_true_iff]
    constructor
    · intro h
      subst h
      cases a with
      | none => exact Or.inl ⟨rfl, rfl⟩
      | some la => exact Or.inr ⟨la, la, rfl, rfl, rfl, rfl⟩
    · rintro (⟨rfl, rfl⟩ | ⟨la, lb, rfl, rfl, _, rfl⟩) <;> rfl
  · rfl

theorem filterDeprecatedLabels_labels (m : NodeTopologyMap) :
    (filterDeprecatedLabels m).Labels =
      deleteIfMatch fdRegionKey topoRegionKey
        (deleteIfMatch fdZoneKey topoZoneKey
          (deleteIfMatch betaRegionKey topoRegionKey
            (deleteIfMatch betaZoneKey topoZoneKey (sortedSixStage m.Labels)))) := rfl

theorem lookupVals_filter_betaZone (m : NodeTopologyMap) :
    lookupVals (filterDeprecatedLabels m).Labels betaZoneKey =
      if CompareStringSlices ((lookupVals m.Labels betaZoneKey).map sortStrings)
          ((lookupVals m.Labels topoZoneKey).map sortStrings) then none
      else (lookupVals m.Labels betaZoneKey).map sortStrings := by
  rw [filterDeprecatedLabels_labels,
    lookupVals_deleteIfMatch_ne fdRegionKey topoRegionKey betaZoneKey _ (by decide),
    lookupVals_deleteIfMatch_ne fdZoneKey topoZoneKey betaZoneKey _ (by decide),
    lookupVals_deleteIfMatch_ne betaRegionKey topoRegionKey betaZoneKey _ (by decide),
    lookupVals_deleteIfMatch_self betaZoneKey topoZoneKey _,
    lookupVals_sortedSixStage_six _ _ (by simp),
    lookupVals_sortedSixStage_six _ _ (by simp)]

theorem lookupVals_filter_betaRegion (m : NodeTopologyMap) :
    lookupVals (filterDeprecatedLabels m).Labels betaRegionKey =
      if CompareStringSlices ((lookupVals m.Labels betaRegionKey).map sortStrings)
          ((lookupVals m.Labels topoRegionKey).map sortStrings) then none
      else (lookupVals m.Labels betaRegionKey).map sortStrings := by
  rw [filterDeprecatedLabels_labels,
    lookupVals_deleteIfMatch_ne fdRegionKey topoRegionKey betaRegionKey _ (by decide),
    lookupVals_deleteIfMatch_ne fdZoneKey topoZoneKey betaRegionKey _ (by decide),
    lookupVals_deleteIfMatch_self betaRegionKey topoRegionKey _,
    lookupVals_deleteIfMatch_ne betaZoneKey topoZoneKey betaRegionKey _ (by decide),
    lookupVals_deleteIfMatch_ne betaZoneKey topoZoneKey topoRegionKey _ (by decide),
    lookupVals_sortedSixStage_six _ _ (by simp),
    lookupVals_sortedSixStage_six _ _ (by simp)]

theorem lookupVals_filter_fdZone (m : NodeTopologyMap) :
    lookupVals (filterDeprecatedLabels m).Labels fdZoneKey =
      if CompareStringSlices ((lookupVals m.Labels fdZoneKey).map sortStrings)
          ((lookupVals m.Labels topoZoneKey).map sortStrings) then none
      else (lookupVals m.Labels fdZoneKey).map sortStrings := by
  rw [filterDeprecatedLabels_labels,
    lookupVals_deleteIfMatch_ne fdRegionKey topoRegionKey fdZoneKey _ (by decide),
    lookupVals_deleteIfMatch_self fdZoneKey topoZoneKey _,
    lookupVals_deleteIfMatch_ne betaRegionKey topoRegionKey fdZoneKey _ (by decide),
    lookupVals_deleteIfMatch_ne betaZoneKey topoZoneKey fdZoneKey _ (by decide),
    lookupVals_deleteIfMatch_ne betaRegionKey topoRegionKey topoZoneKey _ (by decide),
    lookupVals_deleteIfMatch_ne betaZoneKey topoZoneKey topoZoneKey _ (by decide),
    lookupVals_sortedSixStage_six _ _ (by simp),
    lookupVals_sortedSixStage_six _ _ (by simp)]

theorem lookupVals_filter_fdRegion (m : NodeTopologyMap) :
    lookupVals (filterDeprecatedLabels m).Labels fdRegionKey =
      if CompareStringSlices ((lookupVals m.Labels fdRegionKey).map sortStrings)
          ((lookupVals m.Labels topoRegionKey).map sortStrings) then none
      else (lookupVals m.Labels fdRegionKey).map sortStrings := by
  rw [filterDeprecatedLabels_labels,
    lookupVals_deleteIfMatch_self fdRegionKey topoRegionKey _,
    lookupVals_deleteIfMatch_ne fdZoneKey topoZoneKey fdRegionKey _ (by decide),
    lookupVals_deleteIfMatch_ne betaRegionKey topoRegionKey fdRegionKey _ (by decide),
    lookupVals_deleteIfMatch_ne betaZoneKey topoZoneKey fdRegionKey _ (by decide),
    lookupVals_deleteIfMatch_ne fdZoneKey topoZoneKey topoRegionKey _ (by decide),
    lookupVals_deleteIfMatch_ne betaRegionKey topoRegionKey topoRegionKey _ (by decide),
    lookupVals_deleteIfMatch_ne betaZoneKey topoZoneKey topoRegionKey _ (by decide),
    lookupVals_sortedSixStage_six _ _ (by simp),
    lookupVals_sortedSixStage_six _ _ (by simp)]

theorem lookupVals_filter_topoZone (m : NodeTopologyMap) :
    lookupVals (filterDeprecatedLabels m).Labels topoZoneKey =
      (lookupVals m.Labels topoZoneKey).map sortStrings := by
  rw [filterDeprecatedLabels_labels,
    lookupVals_deleteIfMatch_ne fdRegionKey topoRegionKey topoZoneKey _ (by decide),
    lookupVals_deleteIfMatch_ne fdZoneKey topoZoneKey topoZoneKey _ (by decide),
    lookupVals_deleteIfMatch_ne betaRegionKey topoRegionKey topoZoneKey _ (by decide),
    lookupVals_deleteIfMatch_ne betaZoneKey topoZoneKey topoZoneKey _ (by decide),
    lookupVals_sortedSixStage_six _ _ (by simp)]

theorem lookupVals_filter_topoRegion (m : NodeTopologyMap) :
    lookupVals (filterDeprecatedLabels m).Labels topoRegionKey =
      (lookupVals m.Labels topoRegionKey).map sortStrings := by
  rw [filterDeprecatedLabels_labels,
    lookupVals_deleteIfMatch_ne fdRegionKey topoRegionKey topoRegionKey _ (by decide),
    lookupVals_deleteIfMatch_ne fdZoneKey topoZoneKey topoRegionKey _ (by decide),
    lookupVals_deleteIfMatch_ne betaRegionKey topoRegionKey topoRegionKey _ (by decide),
    lookupVals_deleteIfMatch_ne betaZoneKey topoZoneKey topoRegionKey _ (by decide),
    lookupVals_sortedSixStage_six _ _ (by simp)]

/-- C5: after filterDeprecatedLabels, a deprecated zone/region key whose
sorted values exactly equal the canonical key's sorted values is absent,
while a deprecated key whose sorted values differ in any element remains
(sorted in place) alongside the canonical key. -/
theorem C5_filter_deprecated (m : NodeTopologyMap) (dep canon : String)
    (vs ws : List String) (hpair : (dep, canon) ∈ depPairs)
    (hdep : lookupVals m.Labels dep = some vs)
    (hcanon : lookupVals m.Labels canon = some ws) :
    (sortStrings vs = sortStrings ws →
      lookupVals (filterDeprecatedLabels m).Labels dep = none) ∧
    (sortStrings vs ≠ sortStrings ws →
      lookupVals (filterDeprecatedLabels m).Labels dep = some (sortStrings vs) ∧
      lookupVals (filterDeprecatedLabels m).Labels canon = some (sortStrings ws)) := by
  simp only [depPairs, List.mem_cons, List.not_mem_nil, or_false,
    Prod.mk.injEq] at hpair
  have hcmp : CompareStringSlices (some (sortStrings vs)) (some (sortStrings ws)) =
      true ↔ sortStrings vs = sortStrings ws := by
    rw [CompareStringSlices_eq_true_iff]
    simp
  rcases hpair with ⟨rfl, rfl⟩ | ⟨rfl, rfl⟩ | ⟨rfl, rfl⟩ | ⟨rfl, rfl⟩
  · refine ⟨fun heq => ?_, fun hne => ⟨?_, ?_⟩⟩
    · rw [lookupVals_filter_betaZone, hdep, hcanon, Option.map_some', Option.map_some',
        if_pos (hcmp.mpr heq)]
    · rw [lookupVals_filter_betaZone, hdep, hcanon, Option.map_some', Option.map_some',
        if_neg (fun h => hne (hcmp.mp h))]
    · rw [lookupVals_filter_topoZone, hcanon, Option.map_some']
  · refine ⟨fun heq => ?_, fun hne => ⟨?_, ?_⟩⟩
    · rw [lookupVals_filter_betaRegion, hdep, hcanon, Option.map_some', Option.map_some',
        if_pos (hcmp.mpr heq)]
    · rw [lookupVals_filter_betaRegion, hdep, hcanon, Option.map_some', Option.map_some',
        if_neg (fun h => hne (hcmp.mp h))]
    · rw [lookupVals_filter_topoRegion, hcanon, Option.map_some']
  · refine ⟨fun heq => ?_, fun hne => ⟨?_, ?_⟩⟩
    · rw [lookupVals_filter_fdZone, hdep, hcanon, Option.map_some', Option.map_some',
        if_pos (hcmp.mpr heq)]
    · rw [lookupVals_filter_fdZone, hdep, hcanon, Option.map_some', Option.map_some',
        if_neg (fun h => hne (hcmp.mp h))]
    · rw [lookupVals_filter_topoZone, hcanon, Option.map_some']
  · refine ⟨fun heq => ?_, fun hne => ⟨?_, ?_⟩⟩
    · rw [lookupVals_filter_fdRegion, hdep, hcanon, Option.map_some', Option.map_some',
        if_pos (hcmp.mpr heq)]
    · rw [lookupVals_filter_fdRegion, hdep, hcanon, Option.map_some', Option.map_some',
        if_neg (fun h => hne (hcmp.mp h))]
    · rw [lookupVals_filter_topoRegion, hcanon, Option.map_some']

/-- Concrete topology map for the C5 witness: the beta zone key matches the
canonical key after sorting, the failure-domain zone key does not. -/
def mC5wit : NodeTopologyMap :=
  ⟨[(betaZoneKey, ["b", "a"]), (topoZoneKey, ["a", "b"]), (fdZoneKey, ["a", "c"])]⟩

theorem C5_filter_deprecated_witness :
    lookupVals (filterDeprecatedLabels mC5wit).Labels betaZoneKey = none ∧
    lookupVals (filterDeprecatedLabels mC5wit).Labels fdZoneKey = some ["a", "c"] ∧
    lookupVals (filterDeprecatedLabels mC5wit).Labels topoZoneKey = some ["a", "b"] := by
  refine ⟨(C5_filter_deprecated mC5wit betaZoneKey topoZoneKey ["b", "a"] ["a", "b"]
    (by decide) rfl rfl).1 (by decide), ?_, ?_⟩
  · have h := (C5_filter_deprecated mC5wit fdZoneKey topoZoneKey ["a", "c"] ["a", "b"]
      (by decide) rfl rfl).2 (by decide)
    rw [h.1]
    rfl
  · have h := (C5_filter_deprecated mC5wit fdZoneKey topoZoneKey ["a", "c"] ["a", "b"]
      (by decide) rfl rfl).2 (by decide)
    rw [h.2]
    rfl

/-! ### C1: flexible scaling versus the cached status branch -/

/-- Concrete cluster for the C1 counterexample: flexible scaling is enabled
but the status already records the zone failure domain. -/
def scC1cex : StorageCluster := ⟨"zone", some ⟨[]⟩, true, false, 0⟩

/-- C1 counterexample: a cluster with flexible scaling enabled whose status
already records "zone" makes determineFailureDomain return type "zone", not
"host" — the cached-status branch precedes the flexible-scaling override, so
the claim as stated is false. -/
theorem C1_flexible_scaling_cex :
    scC1cex.flexibleScaling = true ∧
    determineFailureDomain scC1cex [] = Except.ok ⟨"zone", "", []⟩ ∧
    ("zone" : String) ≠ "host" :=
  ⟨rfl, rfl, by decide⟩

/-- C1 (amended): for every storage cluster with flexible scaling enabled
whose status does not yet record a failure domain, every failure domain
returned by determineFailureDomain has type "host". -/
theorem C1_flexible_scaling_host (sc : StorageCluster) (nodes : List Node)
    (fd : FailureDomain) (hfd : sc.statusFailureDomain = "")
    (hflex : sc.flexibleScaling = true)
    (hres : determineFailureDomain sc nodes = Except.ok fd) :
    fd.dtype = "host" := by
  unfold determineFailureDomain at hres
  rw [hfd, hflex] at hres
  simp only [ne_eq, not_true_eq_false, reduceIte] at hres
  split at hres
  · exact absurd hres (by simp)
  · cases hres
    rfl

theorem C1_flexible_scaling_host_witness :
    (⟨"", some ⟨[]⟩, true, false, 0⟩ : StorageCluster).statusFailureDomain = "" ∧
    (⟨"", some ⟨[]⟩, true, false, 0⟩ : StorageCluster).flexibleScaling = true ∧
    determineFailureDomain ⟨"", some ⟨[]⟩, true, false, 0⟩ [] =
      Except.ok ⟨"host", "", []⟩ ∧
    (⟨"host", "", []⟩ : FailureDomain).dtype = "host" :=
  ⟨rfl, rfl, rfl,
    C1_flexible_scaling_host ⟨"", some ⟨[]⟩, true, false, 0⟩ [] ⟨"host", "", []⟩
      rfl rfl rfl⟩

/-! ### C3: the cached-status branch is sticky -/

theorem determineFailureDomain_cached_branch (sc : StorageCluster)
    (nodes : List Node) (m : NodeTopologyMap)
    (hm : sc.statusNodeTopologies = some m)
    (hfd : sc.statusFailureDomain ≠ "") :
    determineFailureDomain sc nodes =
      Except.ok ⟨sc.statusFailureDomain,
        ((filterDeprecatedLabels m).GetKeyValues sc.statusFailureDomain).1,
        ((filterDeprecatedLabels m).GetKeyValues sc.statusFailureDomain).2⟩ := by
  unfold determineFailureDomain
  rw [hm]
  simp only [if_pos hfd]

theorem determineFailureDomain_flex_branch (sc : StorageCluster)
    (nodes : List Node) (m : NodeTopologyMap)
    (hm : sc.statusNodeTopologies = some m)
    (hfd : sc.statusFailureDomain = "") (hflex : sc.flexibleScaling = true) :
    determineFailureDomain sc nodes =
      Except.ok ⟨"host", ((filterDeprecatedLabels m).GetKeyValues "host").1,
        ((filterDeprecatedLabels m).GetKeyValues "host").2⟩ := by
  unfold determineFailureDomain
  rw [hm, hfd, hflex]
  simp only [ne_eq, not_true_eq_false, reduceIte]

/-- C3: whenever the status already records a failure-domain type, the
selector returns exactly that type, with key and values freshly looked up
(through GetKeyValues) from the filtered current topology map, regardless of
what the map would otherwise select. -/
theorem C3_cached_status (sc : StorageCluster) (nodes : List Node)
    (m : NodeTopologyMap) (hm : sc.statusNodeTopologies = some m)
    (hfd : sc.statusFailureDomain ≠ "") :
    determineFailureDomain sc nodes =
      Except.ok ⟨sc.statusFailureDomain,
        ((filterDeprecatedLabels m).GetKeyValues sc.statusFailureDomain).1,
        ((filterDeprecatedLabels m).GetKeyValues sc.statusFailureDomain).2⟩ :=
  determineFailureDomain_cached_branch sc nodes m hm hfd

/-- Witness for C3: a status recording "zone" over a topology map whose zone
key has only two values (which would only qualify for rack) still yields
"zone". -/
theorem C3_cached_status_witness :
    determineFailureDomain ⟨"zone", some ⟨[(topoZoneKey, ["b", "a"])]⟩, false, false, 0⟩ [] =
      Except.ok ⟨"zone", topoZoneKey, ["a", "b"]⟩ := by
  rw [C3_cached_status ⟨"zone", some ⟨[(topoZoneKey, ["b", "a"])]⟩, false, false, 0⟩ []
    ⟨[(topoZoneKey, ["b", "a"])]⟩ rfl (by decide)]
  rfl

/-! ### C4: zone thresholds through the filter -/

theorem ancestor_sortValsAt {e : String × List String} {k : String} {l : LabelMap}
    (h : e ∈ sortValsAt k l) : ∃ q ∈ l, e.1 = q.1 ∧ e.2.length = q.2.length := by
  obtain ⟨q, hq, hfe⟩ := List.mem_map.mp h
  refine ⟨q, hq, ?_⟩
  by_cases hqk : q.1 = k
  · rw [if_pos hqk] at hfe
    subst hfe
    exact ⟨rfl, sortStrings_length q.2⟩
  · rw [if_neg hqk] at hfe
    subst hfe
    exact ⟨rfl, rfl⟩

theorem ancestor_sortedSixStage {e : String × List String} {l : LabelMap}
    (h : e ∈ sortedSixStage l) : ∃ q ∈ l, e.1 = q.1 ∧ e.2.length = q.2.length := by
  unfold sortedSixStage at h
  obtain ⟨q1, h1, hk1, hl1⟩ := ancestor_sortValsAt h
  obtain ⟨q2, h2, hk2, hl2⟩ := ancestor_sortValsAt h1
  obtain ⟨q3, h3, hk3, hl3⟩ := ancestor_sortValsAt h2
  obtain ⟨q4, h4, hk4, hl4⟩ := ancestor_sortValsAt h3
  obtain ⟨q5, h5, hk5, hl5⟩ := ancestor_sortValsAt h4
  obtain ⟨q6, h6, hk6, hl6⟩ := ancestor_sortValsAt h5
  exact ⟨q6, h6, by rw [hk1, hk2, hk3, hk4, hk5, hk6],
    by rw [hl1, hl2, hl3, hl4, hl5, hl6]⟩

theorem mem_deleteIfMatch {e : String × List String} {dep canon : String}
    {l : LabelMap} (h : e ∈ deleteIfMatch dep canon l) : e ∈ l := by
  unfold deleteIfMatch at h
  split at h
  · exact (List.filter_sublist l).subset h
  · exact h

theorem mem_filterDeprecated_ancestor {e : String × List String}
    {m : NodeTopologyMap} (h : e ∈ (filterDeprecatedLabels m).Labels) :
    ∃ q ∈ m.Labels, e.1 = q.1 ∧ e.2.length = q.2.length := by
  rw [filterDeprecatedLabels_labels] at h
  exact ancestor_sortedSixStage
    (mem_deleteIfMatch (mem_deleteIfMatch (mem_deleteIfMatch (mem_deleteIfMatch h))))

theorem lookupVals_sortedSixStage_len {l : LabelMap} {k : String} {vs : List String}
    (h : lookupVals l k = some vs) :
    ∃ u, lookupVals (sortedSixStage l) k = some u ∧ u.length = vs.length := by
  have hlen := lookupVals_len_sortedSixStage l k
  rw [h] at hlen
  cases hu : lookupVals (sortedSixStage l) k with
  | none => rw [hu] at hlen; exact absurd hlen (by simp)
  | some u =>
    rw [hu] at hlen
    simp only [Option.map_some', Option.some.injEq] at hlen
    exact ⟨u, rfl, hlen⟩

/-- Existence of an eligible zone entry is preserved by the filter: if some
key containing "zone" has at least `t` values, the filtered map still has
one (possibly the canonical key that subsumed a deleted deprecated key). -/
theorem zone_entry_preserved {m : NodeTopologyMap} {t : Nat}
    (hnd : (m.Labels.map Prod.fst).Nodup)
    (hex : ∃ e ∈ m.Labels, strContains e.1 "zone" = true ∧ t ≤ e.2.length) :
    ∃ e ∈ (filterDeprecatedLabels m).Labels,
      strContains e.1 "zone" = true ∧ t ≤ e.2.length := by
  obtain ⟨⟨k, vs⟩, hmem, hz, hlen⟩ := hex
  have hlk : lookupVals m.Labels k = some vs := lookupVals_of_mem_nodup hmem hnd
  by_cases hbz : k = betaZoneKey
  · subst hbz
    have hfl := lookupVals_filter_betaZone m
    rw [hlk, Option.map_some'] at hfl
    by_cases hc : CompareStringSlices (some (sortStrings vs))
        ((lookupVals m.Labels topoZoneKey).map sortStrings) = true
    · have hceq := (CompareStringSlices_eq_true_iff _ _).mp hc
      cases htz : lookupVals m.Labels topoZoneKey with
      | none => rw [htz] at hceq; exact absurd hceq (by simp)
      | some ws =>
        rw [htz, Option.map_some', Option.some.injEq] at hceq
        have hftz := lookupVals_filter_topoZone m
        rw [htz, Option.map_some'] at hftz
        refine ⟨(topoZoneKey, sortStrings ws), lookupVals_mem hftz,
          show strContains topoZoneKey "zone" = true by decide, ?_⟩
        show t ≤ (sortStrings ws).length
        have hws : ws.length = vs.length := by
          rw [← sortStrings_length ws, ← hceq, sortStrings_length]
        rw [sortStrings_length, hws]
        exact hlen
    · rw [if_neg hc] at hfl
      exact ⟨(betaZoneKey, sortStrings vs), lookupVals_mem hfl,
        show strContains betaZoneKey "zone" = true by decide,
        show t ≤ (sortStrings vs).length by rw [sortStrings_length]; exact hlen⟩
  · by_cases hfz : k = fdZoneKey
    · subst hfz
      have hfl := lookupVals_filter_fdZone m
      rw [hlk, Option.map_some'] at hfl
      by_cases hc : CompareStringSlices (some (sortStrings vs))
          ((lookupVals m.Labels topoZoneKey).map sortStrings) = true
      · have hceq := (CompareStringSlices_eq_true_iff _ _).mp hc
        cases htz : lookupVals m.Labels topoZoneKey with
        | none => rw [htz] at hceq; exact absurd hceq (by simp)
        | some ws =>
          rw [htz, Option.map_some', Option.some.injEq] at hceq
          have hftz := lookupVals_filter_topoZone m
          rw [htz, Option.map_some'] at hftz
          refine ⟨(topoZoneKey, sortStrings ws), lookupVals_mem hftz,
            show strContains topoZoneKey "zone" = true by decide, ?_⟩
          show t ≤ (sortStrings ws).length
          have hws : ws.length = vs.length := by
            rw [← sortStrings_length ws, ← hceq, sortStrings_length]
          rw [sortStrings_length, hws]
          exact hlen
      · rw [if_neg hc] at hfl
        exact ⟨(fdZoneKey, sortStrings vs), lookupVals_mem hfl,
          show strContains fdZoneKey "zone" = true by decide,
          show t ≤ (sortStrings vs).length by rw [sortStrings_length]; exact hlen⟩
    · by_cases hbr : k = betaRegionKey
      · subst hbr
        exact absurd hz (show ¬strContains betaRegionKey "zone" = true by decide)
      · by_cases hfr : k = fdRegionKey
        · subst hfr
          exact absurd hz (show ¬strContains fdRegionKey "zone" = true by decide)
        · obtain ⟨u, hu, hul⟩ := lookupVals_sortedSixStage_len hlk
          have hflu : lookupVals (filterDeprecatedLabels m).Labels k = some u := by
            rw [filterDeprecatedLabels_labels,
              lookupVals_deleteIfMatch_ne _ _ _ _ hfr,
              lookupVals_deleteIfMatch_ne _ _ _ _ hfz,
              lookupVals_deleteIfMatch_ne _ _ _ _ hbr,
              lookupVals_deleteIfMatch_ne _ _ _ _ hbz, hu]
          exact ⟨(k, u), lookupVals_mem hflu, hz, hul ▸ hlen⟩

theorem zoneEligible_eq_true_iff (arb : Bool) (l : LabelMap) :
    zoneEligible arb l = true ↔
      ∃ e ∈ l, strContains e.1 "zone" = true ∧
        ((2 ≤ e.2.length ∧ arb = true) ∨ 3 ≤ e.2.length) := by
  unfold zoneEligible
  rw [List.any_eq_true]
  constructor
  · rintro ⟨e, he, hp⟩
    simp only [Bool.and_eq_true, Bool.or_eq_true, decide_eq_true_eq] at hp
    exact ⟨e, he, hp.1, hp.2.imp (fun h => ⟨h.1, h.2⟩) id⟩
  · rintro ⟨e, he, hz, hp⟩
    refine ⟨e, he, ?_⟩
    simp only [Bool.and_eq_true, Bool.or_eq_true, decide_eq_true_eq]
    exact ⟨hz, hp.imp (fun h => ⟨h.1, h.2⟩) id⟩

theorem determineFailureDomain_zone_branch (sc : StorageCluster)
    (nodes : List Node) (m : NodeTopologyMap)
    (hm : sc.statusNodeTopologies = some m) (hfd : sc.statusFailureDomain = "")
    (hflex : sc.flexibleScaling = false)
    (hze : zoneEligible sc.arbiterEnabled (filterDeprecatedLabels m).Labels = true) :
    determineFailureDomain sc nodes =
      Except.ok ⟨"zone", ((filterDeprecatedLabels m).GetKeyValues "zone").1,
        ((filterDeprecatedLabels m).GetKeyValues "zone").2⟩ := by
  unfold determineFailureDomain
  rw [hm, hfd, hflex]
  simp only [ne_eq, not_true_eq_false, reduceIte, Bool.false_eq_true, if_false,
    hze, if_true]

theorem determineFailureDomain_rack_branch (sc : StorageCluster)
    (nodes : List Node) (m : NodeTopologyMap)
    (hm : sc.statusNodeTopologies = some m) (hfd : sc.statusFailureDomain = "")
    (hflex : sc.flexibleScaling = false)
    (hze : zoneEligible sc.arbiterEnabled (filterDeprecatedLabels m).Labels = false) :
    determineFailureDomain sc nodes =
      match ensureNodeRacks nodes sc.minimumNodes (filterDeprecatedLabels m) with
      | none => Except.error "Unable to assign rack labels"
      | some (_, m2) =>
        Except.ok ⟨"rack", (m2.GetKeyValues "rack").1, (m2.GetKeyValues "rack").2⟩ := by
  unfold determineFailureDomain
  rw [hm, hfd, hflex]
  simp only [ne_eq, not_true_eq_false, reduceIte, hze, if_false, Bool.false_eq_true]

/-- C4: with no cached domain and flexible scaling disabled, a zone key needs
at least 3 distinct values (arbiter disabled) to select "zone"; if every
zone key has fewer than 3 the selection falls through to "rack"; with
arbiter enabled 2 distinct values suffice. -/
theorem C4_zone_thresholds (sc : StorageCluster) (nodes : List Node)
    (m : NodeTopologyMap) (hm : sc.statusNodeTopologies = some m)
    (hfd : sc.statusFailureDomain = "") (hflex : sc.flexibleScaling = false)
    (hnd : (m.Labels.map Prod.fst).Nodup)
    (hvals : ∀ e ∈ m.Labels, e.2.Nodup) :
    (sc.arbiterEnabled = false →
      (∀ e ∈ m.Labels, strContains e.1 "zone" = true → e.2.length < 3) →
      ∀ fd, determineFailureDomain sc nodes = Except.ok fd → fd.dtype = "rack") ∧
    ((∃ e ∈ m.Labels, strContains e.1 "zone" = true ∧ 3 ≤ e.2.length) →
      fdTypeOf (determineFailureDomain sc nodes) = some "zone") ∧
    (sc.arbiterEnabled = true →
      (∃ e ∈ m.Labels, strContains e.1 "zone" = true ∧ 2 ≤ e.2.length) →
      fdTypeOf (determineFailureDomain sc nodes) = some "zone") := by
  refine ⟨fun harb hall fd hres => ?_, fun hex => ?_, fun harb hex => ?_⟩
  · have hze : zoneEligible sc.arbiterEnabled (filterDeprecatedLabels m).Labels = false := by
      rw [← Bool.not_eq_true, zoneEligible_eq_true_iff]
      rintro ⟨e, he, hz, hp⟩
      obtain ⟨q, hq, hkq, hlq⟩ := mem_filterDeprecated_ancestor he
      have hlt := hall q hq (hkq ▸ hz)
      rw [← hlq] at hlt
      rcases hp with ⟨_, ha⟩ | h3
      · rw [harb] at ha
        exact absurd ha (by simp)
      · omega
    rw [determineFailureDomain_rack_branch sc nodes m hm hfd hflex hze] at hres
    split at hres
    · exact absurd hres (by simp)
    · cases hres
      rfl
  · have hze : zoneEligible sc.arbiterEnabled (filterDeprecatedLabels m).Labels = true := by
      rw [zoneEligible_eq_true_iff]
      obtain ⟨e, he, hz, h3⟩ := zone_entry_preserved hnd hex
      exact ⟨e, he, hz, Or.inr h3⟩
    rw [determineFailureDomain_zone_branch sc nodes m hm hfd hflex hze]
    rfl
  · have hze : zoneEligible sc.arbiterEnabled (filterDeprecatedLabels m).Labels = true := by
      rw [zoneEligible_eq_true_iff]
      obtain ⟨e, he, hz, h2⟩ := zone_entry_preserved hnd hex
      exact ⟨e, he, hz, Or.inl ⟨h2, harb⟩⟩
    rw [determineFailureDomain_zone_branch sc nodes m hm hfd hflex hze]
    rfl

/-- Witness for C4: a 2-value zone key with arbiter disabled falls through to
rack, and with arbiter enabled (or a third value) selects zone. -/
theorem C4_zone_thresholds_witness :
    ((determineFailureDomain ⟨"", some ⟨[(topoZoneKey, ["a", "b"])]⟩, false, false, 3⟩ [] =
        Except.ok ⟨"rack", "", []⟩) ∧
      fdTypeOf (determineFailureDomain ⟨"", some ⟨[(topoZoneKey, ["a", "b", "c"])]⟩,
        false, false, 3⟩ []) = some "zone" ∧
      fdTypeOf (determineFailureDomain ⟨"", some ⟨[(topoZoneKey, ["a", "b"])]⟩,
        false, true, 3⟩ []) = some "zone") := by
  refine ⟨?_, ?_, ?_⟩
  · have h := (C4_zone_thresholds ⟨"", some ⟨[(topoZoneKey, ["a", "b"])]⟩, false, false, 3⟩
      [] ⟨[(topoZoneKey, ["a", "b"])]⟩ rfl rfl rfl (by decide) (by decide)).1 rfl
      (by intro e he hz
          simp only [List.mem_singleton] at he
          subst he
          decide)
      ⟨"rack", "", []⟩ rfl
    rfl
  · exact (C4_zone_thresholds ⟨"", some ⟨[(topoZoneKey, ["a", "b", "c"])]⟩, false, false, 3⟩
      [] ⟨[(topoZoneKey, ["a", "b", "c"])]⟩ rfl rfl rfl (by decide) (by decide)).2.1
      ⟨(topoZoneKey, ["a", "b", "c"]), by decide⟩
  · exact (C4_zone_thresholds ⟨"", some ⟨[(topoZoneKey, ["a", "b"])]⟩, false, true, 3⟩
      [] ⟨[(topoZoneKey, ["a", "b"])]⟩ rfl rfl rfl (by decide) (by decide)).2.2 rfl
      ⟨(topoZoneKey, ["a", "b"]), by decide⟩

/-! ### C6: the least-loaded, lexicographically-first candidate -/

theorem lexLeB_trans : ∀ a b c : List Char,
    lexLeB a b = true → lexLeB b c = true → lexLeB a c = true := by
  intro a
  induction a with
  | nil => intro b c _ _; rfl
  | cons x xs ih =>
    intro b c hab hbc
    cases b with
    | nil => simp [lexLeB] at hab
    | cons y ys =>
      cases c with
      | nil => simp [lexLeB] at hbc
      | cons z zs =>
        rcases Nat.lt_trichotomy x.toNat y.toNat with hxy | hxy | hxy
        · rcases Nat.lt_trichotomy y.toNat z.toNat with hyz | hyz | hyz
          · have hxz : x.toNat < z.toNat := lt_trans hxy hyz
            simp [lexLeB, hxz]
          · have hxz : x.toNat < z.toNat := hyz ▸ hxy
            simp [lexLeB, hxz]
          · exfalso
            simp [lexLeB, Nat.lt_asymm hyz, hyz] at hbc
        · rcases Nat.lt_trichotomy y.toNat z.toNat with hyz | hyz | hyz
          · have hxz : x.toNat < z.toNat := hxy ▸ hyz
            simp [lexLeB, hxz]
          · have hxz : x.toNat = z.toNat := hxy.trans hyz
            simp only [lexLeB, hxy, lt_self_iff_false, if_false, hyz] at hab hbc
            simp only [lexLeB, hxz, lt_self_iff_false, if_false]
            exact ih ys zs hab hbc
          · exfalso
            simp [lexLeB, Nat.lt_asymm hyz, hyz] at hbc
        · exfalso
          simp [lexLeB, Nat.lt_asymm hxy, hxy] at hab

theorem strLeB_trans (a b c : String) (h1 : strLeB a b = true)
    (h2 : strLeB b c = true) : strLeB a c = true :=
  lexLeB_trans a.data b.data c.data h1 h2

theorem insertSorted_pairwise (x : String) (l : List String)
    (h : List.Pairwise (fun a b => strLeB a b = true) l) :
    List.Pairwise (fun a b => strLeB a b = true) (insertSorted x l) := by
  induction l with
  | nil => simp [insertSorted]
  | cons y t ih =>
    obtain ⟨hy, ht⟩ := List.pairwise_cons.mp h
    simp only [insertSorted]
    split
    next hxy =>
      rw [List.pairwise_cons]
      refine ⟨?_, h⟩
      intro b hb
      rcases List.mem_cons.mp hb with rfl | hb'
      · exact hxy
      · exact strLeB_trans x y b hxy (hy b hb')
    next hxy =>
      rw [List.pairwise_cons]
      refine ⟨?_, ih ht⟩
      intro b hb
      have hmem : b ∈ x :: t := (insertSorted_perm x t).mem_iff.mp hb
      rcases List.mem_cons.mp hmem with rfl | hb'
      · rcases strLeB_total y b with h' | h'
        · exact h'
        · exact absurd h' hxy
      · exact hy b hb'

theorem sortStrings_pairwise (l : List String) :
    List.Pairwise (fun a b => strLeB a b = true) (sortStrings l) := by
  induction l with
  | nil => exact List.Pairwise.nil
  | cons x t ih => exact insertSorted_pairwise x (sortStrings t) ih

theorem pickMinRack_mem (l : LabelMap) :
    ∀ (xs : List String) (best : String), pickMinRack l xs best ∈ best :: xs := by
  intro xs
  induction xs with
  | nil => intro best; simp [pickMinRack]
  | cons r rest ih =>
    intro best
    simp only [pickMinRack]
    split
    · exact List.mem_cons_of_mem best (ih r)
    · rcases List.mem_cons.mp (ih best) with h | h
      · exact List.mem_cons.mpr (Or.inl h)
      · exact List.mem_cons.mpr (Or.inr (List.mem_cons.mpr (Or.inr h)))

theorem pickMinRack_le (l : LabelMap) :
    ∀ (xs : List String) (best : String),
      rackLen l (pickMinRack l xs best) ≤ rackLen l best ∧
      ∀ r ∈ xs, rackLen l (pickMinRack l xs best) ≤ rackLen l r := by
  intro xs
  induction xs with
  | nil => intro best; exact ⟨le_refl _, by simp⟩
  | cons r rest ih =>
    intro best
    simp only [pickMinRack]
    split
    next hlt =>
      obtain ⟨h1, h2⟩ := ih r
      refine ⟨le_trans h1 (le_of_lt hlt), ?_⟩
      intro x hx
      rcases List.mem_cons.mp hx with rfl | hx'
      · exact h1
      · exact h2 x hx'
    next hnlt =>
      obtain ⟨h1, h2⟩ := ih best
      refine ⟨h1, ?_⟩
      intro x hx
      rcases List.mem_cons.mp hx with rfl | hx'
      · exact le_trans h1 (Nat.le_of_not_lt hnlt)
      · exact h2 x hx'

theorem pickMinRack_lt_of_ne (l : LabelMap) :
    ∀ (xs : List String) (best : String), pickMinRack l xs best ≠ best →
      rackLen l (pickMinRack l xs best) < rackLen l best := by
  intro xs
  induction xs with
  | nil => intro best h; exact absurd rfl h
  | cons r rest ih =>
    intro best h
    simp only [pickMinRack] at h ⊢
    by_cases hlt : rackLen l r < rackLen l best
    · rw [if_pos hlt] at h ⊢
      by_cases hpr : pickMinRack l rest r = r
      · rw [hpr]
        exact hlt
      · exact lt_trans (ih r hpr) hlt
    · rw [if_neg hlt] at h ⊢
      exact ih best h

theorem pickMinRack_tie (l : LabelMap) :
    ∀ (xs : List String) (best : String),
      List.Pairwise (fun a b => strLeB a b = true) (best :: xs) →
      ∀ r ∈ best :: xs, rackLen l r = rackLen l (pickMinRack l xs best) →
        strLeB (pickMinRack l xs best) r = true := by
  intro xs
  induction xs with
  | nil =>
    intro best _ r hr _
    rcases List.mem_cons.mp hr with rfl | h
    · exact strLeB_refl r
    · simp at h
  | cons q rest ih =>
    intro best hpw r hr htie
    have hpwc := List.pairwise_cons.mp hpw
    simp only [pickMinRack] at htie ⊢
    by_cases hlt : rackLen l q < rackLen l best
    · rw [if_pos hlt] at htie ⊢
      rcases List.mem_cons.mp hr with rfl | hr'
      · exfalso
        have hle := (pickMinRack_le l rest q).1
        omega
      · exact ih q hpwc.2 r hr' htie
    · rw [if_neg hlt] at htie ⊢
      have hpw' : List.Pairwise (fun a b => strLeB a b = true) (best :: rest) := by
        rw [List.pairwise_cons]
        exact ⟨fun b hb => hpwc.1 b (List.mem_cons_of_mem q hb),
          (List.pairwise_cons.mp hpwc.2).2⟩
      rcases List.mem_cons.mp hr with rfl | hr'
      · exact ih r hpw' r (List.mem_cons_self r rest) htie
      · rcases List.mem_cons.mp hr' with rfl | hr''
        · by_cases hpb : pickMinRack l rest best = best
          · rw [hpb]
            exact hpwc.1 r (List.mem_cons_self r rest)
          · exfalso
            have h1 := pickMinRack_lt_of_ne l rest best hpb
            have h2 := Nat.le_of_not_lt hlt
            omega
        · exact ih best hpw' r (List.mem_cons_of_mem best hr'') htie

/-- C6: on a non-empty candidate list the selection scan of
determinePlacementRack returns a candidate with the fewest current members,
and among ties the byte-wise lexicographically smallest name. -/
theorem C6_least_loaded (l : LabelMap) (cand : List String) (hne : cand ≠ []) :
    ∃ rack, chooseRack l cand = some rack ∧ rack ∈ cand ∧
      (∀ r ∈ cand, rackLen l rack ≤ rackLen l r) ∧
      (∀ r ∈ cand, rackLen l r = rackLen l rack → strLeB rack r = true) := by
  have hperm := sortStrings_perm cand
  cases hs : sortStrings cand with
  | nil =>
    rw [hs] at hperm
    exact absurd hperm.symm.eq_nil hne
  | cons r0 rest =>
    rw [hs] at hperm
    have hsorted : List.Pairwise (fun a b => strLeB a b = true) (r0 :: rest) := by
      rw [← hs]
      exact sortStrings_pairwise cand
    have hpw : List.Pairwise (fun a b => strLeB a b = true) (r0 :: r0 :: rest) := by
      rw [List.pairwise_cons]
      refine ⟨?_, hsorted⟩
      intro b hb
      rcases List.mem_cons.mp hb with rfl | hb'
      · exact strLeB_refl b
      · exact (List.pairwise_cons.mp hsorted).1 b hb'
    have hmem : pickMinRack l (r0 :: rest) r0 ∈ r0 :: rest := by
      rcases List.mem_cons.mp (pickMinRack_mem l (r0 :: rest) r0) with h | h
      · rw [h]
        exact List.mem_cons_self r0 rest
      · exact h
    refine ⟨pickMinRack l (r0 :: rest) r0, ?_, hperm.mem_iff.mp hmem, ?_, ?_⟩
    · unfold chooseRack
      rw [hs]
    · intro r hr
      exact (pickMinRack_le l (r0 :: rest) r0).2 r (hperm.mem_iff.mpr hr)
    · intro r hr htie
      exact pickMinRack_tie l (r0 :: rest) r0 hpw r
        (List.mem_cons_of_mem r0 (hperm.mem_iff.mpr hr)) htie

theorem C6_least_loaded_witness :
    ∃ rack, chooseRack [("r1", ["a", "b"]), ("r2", ["c"]), ("r0", ["d"])]
        ["r1", "r2", "r0"] = some rack ∧
      rack ∈ ["r1", "r2", "r0"] ∧
      (∀ r ∈ ["r1", "r2", "r0"],
        rackLen [("r1", ["a", "b"]), ("r2", ["c"]), ("r0", ["d"])] rack ≤
          rackLen [("r1", ["a", "b"]), ("r2", ["c"]), ("r0", ["d"])] r) ∧
      (∀ r ∈ ["r1", "r2", "r0"],
        rackLen [("r1", ["a", "b"]), ("r2", ["c"]), ("r0", ["d"])] r =
          rackLen [("r1", ["a", "b"]), ("r2", ["c"]), ("r0", ["d"])] rack →
        strLeB rack r = true) :=
  C6_least_loaded [("r1", ["a", "b"]), ("r2", ["c"]), ("r0", ["d"])]
    ["r1", "r2", "r0"] (by decide)

/-! ### C9: totality of determinePlacementRack -/

theorem firstFreeRack_nil (i : Nat) : firstFreeRack [] i = some (mkRackName 0) := by
  unfold firstFreeRack
  rw [List.range_succ_eq_map]
  rw [List.find?_cons_of_pos _ (by simp [lookupVals])]

theorem synthesizeLoop_ne_nil (l : LabelMap) (i fuel : Nat)
    (h : l ≠ [] ∨ 1 ≤ fuel) : synthesizeLoop l i fuel ≠ [] := by
  induction fuel generalizing l i with
  | zero =>
    rcases h with h | h
    · simpa [synthesizeLoop] using h
    · exact absurd h (by omega)
  | succ f ih =>
    simp only [synthesizeLoop]
    cases hfr : firstFreeRack l i with
    | some r => exact ih (l ++ [(r, [])]) (i + 1) (Or.inl (by simp))
    | none =>
      refine ih l (i + 1) (Or.inl ?_)
      intro hl
      rw [hl, firstFreeRack_nil] at hfr
      exact Option.noConfusion hfr

/-- Concrete panic input for C9: the target node has zone "b", the only rack
is non-empty and its member's zone is "a", and `minRacks` is already met, so
the candidate list is empty and the Go code would panic on `rackList[0]`. -/
def nodesC9 : List Node := [⟨"m1", [(topoZoneKey, "a")]⟩]

/-- The target node of the C9 counterexample. -/
def targetC9 : Node := ⟨"m2", [(topoZoneKey, "b")]⟩

/-- The pre-existing rack map of the C9 counterexample. -/
def racksC9 : NodeTopologyMap := ⟨[("r1", ["m1"])]⟩

/-- C9 counterexample: with minRacks = 1, a zoned target and every rack
non-empty with mismatching members, the candidate list is empty and
determinePlacementRack has no rack to return (the Go source would panic),
refuting the claimed totality. -/
theorem C9_empty_candidates_cex :
    findTargetAZ targetC9.labels = "b" ∧
    (determinePlacementRack nodesC9 targetC9 1 racksC9).2 = none :=
  ⟨rfl, rfl⟩

/-- C9 (amended): determinePlacementRack does return a rack whenever the
target node has no discoverable zone and at least one rack is requested; it
is not total in general (see the counterexample). -/
theorem C9_total_when_no_zone (nodes : List Node) (node : Node) (minRacks : Nat)
    (nr : NodeTopologyMap) (hmin : 1 ≤ minRacks)
    (haz : findTargetAZ node.labels = "") :
    (determinePlacementRack nodes node minRacks nr).2.isSome = true := by
  unfold determinePlacementRack
  rw [haz]
  have hsynth : synthesizeLoop nr.Labels nr.Labels.length
      (minRacks - nr.Labels.length) ≠ [] := by
    apply synthesizeLoop_ne_nil
    cases hl : nr.Labels with
    | nil => exact Or.inr (by simpa using hmin)
    | cons e t => exact Or.inl (by simp)
  have hcand : candidateRacks nodes "" (synthesizeLoop nr.Labels nr.Labels.length
      (minRacks - nr.Labels.length)) = (synthesizeLoop nr.Labels nr.Labels.length
      (minRacks - nr.Labels.length)).map Prod.fst := by
    unfold candidateRacks
    rw [if_neg (by decide)]
  show (chooseRack (synthesizeLoop nr.Labels nr.Labels.length
      (minRacks - nr.Labels.length))
    (candidateRacks nodes "" (synthesizeLoop nr.Labels nr.Labels.length
      (minRacks - nr.Labels.length)))).isSome = true
  rw [hcand]
  unfold chooseRack
  cases hs : sortStrings ((synthesizeLoop nr.Labels nr.Labels.length
      (minRacks - nr.Labels.length)).map Prod.fst) with
  | nil =>
    exfalso
    have hlen := sortStrings_length ((synthesizeLoop nr.Labels nr.Labels.length
      (minRacks - nr.Labels.length)).map Prod.fst)
    rw [hs] at hlen
    simp only [List.length_nil, List.length_map] at hlen
    exact hsynth (List.length_eq_zero.mp hlen.symm)
  | cons r0 rest => rfl

theorem C9_total_when_no_zone_witness :
    (determinePlacementRack [] ⟨"n", []⟩ 3 ⟨[]⟩).2.isSome = true :=
  C9_total_when_no_zone [] ⟨"n", []⟩ 3 ⟨[]⟩ (by decide) rfl

/-! ### C8: dependence on map iteration order -/

theorem lookupVals_perm {l1 l2 : LabelMap} (h : l1.Perm l2)
    (hnd : (l1.map Prod.fst).Nodup) (k : String) :
    lookupVals l1 k = lookupVals l2 k := by
  induction h with
  | nil => rfl
  | cons x h ih =>
    obtain ⟨a, vs⟩ := x
    simp only [List.map_cons, List.nodup_cons] at hnd
    by_cases hak : a = k
    · subst hak
      rw [lookupVals_cons_eq, lookupVals_cons_eq]
    · rw [lookupVals_cons_ne hak, lookupVals_cons_ne hak]
      exact ih hnd.2
  | swap x y l =>
    obtain ⟨a, vs⟩ := x
    obtain ⟨b, ws⟩ := y
    simp only [List.map_cons, List.nodup_cons, List.mem_cons] at hnd
    have hab : b ≠ a := fun h => hnd.1 (Or.inl h)
    by_cases hbk : b = k
    · subst hbk
      rw [lookupVals_cons_eq, lookupVals_cons_ne (fun h => hab h.symm) vs,
        lookupVals_cons_eq]
    · by_cases hak : a = k
      · subst hak
        rw [lookupVals_cons_ne hbk ws, lookupVals_cons_eq, lookupVals_cons_eq]
      · rw [lookupVals_cons_ne hbk ws, lookupVals_cons_ne hak vs,
          lookupVals_cons_ne hak vs, lookupVals_cons_ne hbk ws]
  | trans h1 h2 ih1 ih2 =>
    rw [ih1 hnd, ih2 (((h1.map Prod.fst).nodup_iff).mp hnd)]

theorem map_fst_sortValsAt (k : String) (l : LabelMap) :
    (sortValsAt k l).map Prod.fst = l.map Prod.fst := by
  unfold sortValsAt
  rw [List.map_map]
  apply List.map_congr_left
  intro e _
  by_cases h : e.1 = k <;> simp [h]

theorem map_fst_sortedSixStage (l : LabelMap) :
    (sortedSixStage l).map Prod.fst = l.map Prod.fst := by
  unfold sortedSixStage
  rw [map_fst_sortValsAt, map_fst_sortValsAt, map_fst_sortValsAt,
    map_fst_sortValsAt, map_fst_sortValsAt, map_fst_sortValsAt]

theorem sortedSixStage_perm {l1 l2 : LabelMap} (h : l1.Perm l2) :
    (sortedSixStage l1).Perm (sortedSixStage l2) := by
  unfold sortedSixStage
  exact ((((((h.map _).map _).map _).map _).map _).map _)

theorem nodup_fst_deleteKey {l : LabelMap} (k : String)
    (hnd : (l.map Prod.fst).Nodup) : ((deleteKey k l).map Prod.fst).Nodup :=
  hnd.sublist ((List.filter_sublist l).map Prod.fst)

theorem nodup_fst_deleteIfMatch {l : LabelMap} (dep canon : String)
    (hnd : (l.map Prod.fst).Nodup) :
    ((deleteIfMatch dep canon l).map Prod.fst).Nodup := by
  unfold deleteIfMatch
  split
  · exact nodup_fst_deleteKey dep hnd
  · exact hnd

theorem deleteIfMatch_perm (dep canon : String) {l1 l2 : LabelMap}
    (h : l1.Perm l2) (hlk : ∀ k, lookupVals l1 k = lookupVals l2 k) :
    (deleteIfMatch dep canon l1).Perm (deleteIfMatch dep canon l2) := by
  unfold deleteIfMatch
  rw [hlk dep, hlk canon]
  split
  · exact h.filter _
  · exact h

theorem any_perm {α : Type} (p : α → Bool) {l1 l2 : List α} (h : l1.Perm l2) :
    l1.any p = l2.any p := by
  have hiff : l1.any p = true ↔ l2.any p = true := by
    rw [List.any_eq_true, List.any_eq_true]
    exact ⟨fun ⟨x, hx, hp⟩ => ⟨x, h.mem_iff.mp hx, hp⟩,
      fun ⟨x, hx, hp⟩ => ⟨x, h.mem_iff.mpr hx, hp⟩⟩
  cases hb1 : l1.any p with
  | true => exact (hiff.mp hb1).symm
  | false =>
    cases hb2 : l2.any p with
    | true => exact absurd (hiff.mpr hb2) (by rw [hb1]; simp)
    | false => rfl

theorem filterDeprecatedLabels_perm {l1 l2 : LabelMap} (h : l1.Perm l2)
    (hnd : (l1.map Prod.fst).Nodup) :
    (filterDeprecatedLabels ⟨l1⟩).Labels.Perm (filterDeprecatedLabels ⟨l2⟩).Labels := by
  rw [filterDeprecatedLabels_labels, filterDeprecatedLabels_labels]
  have hS : (sortedSixStage l1).Perm (sortedSixStage l2) := sortedSixStage_perm h
  have hSnd : ((sortedSixStage l1).map Prod.fst).Nodup := by
    rw [map_fst_sortedSixStage]
    exact hnd
  have hSlk := lookupVals_perm hS hSnd
  have h1 := deleteIfMatch_perm betaZoneKey topoZoneKey hS hSlk
  have h1nd := nodup_fst_deleteIfMatch betaZoneKey topoZoneKey hSnd
  have h1lk := lookupVals_perm h1 h1nd
  have h2 := deleteIfMatch_perm betaRegionKey topoRegionKey h1 h1lk
  have h2nd := nodup_fst_deleteIfMatch betaRegionKey topoRegionKey h1nd
  have h2lk := lookupVals_perm h2 h2nd
  have h3 := deleteIfMatch_perm fdZoneKey topoZoneKey h2 h2lk
  have h3nd := nodup_fst_deleteIfMatch fdZoneKey topoZoneKey h2nd
  have h3lk := lookupVals_perm h3 h3nd
  exact deleteIfMatch_perm fdRegionKey topoRegionKey h3 h3lk

theorem ensureLoop_isSome_tm (nodes : List Node) (mr : Nat) :
    ∀ (rest : List Node) (nr tm1 tm2 : NodeTopologyMap),
      (ensureLoop nodes mr rest nr tm1).isSome =
      (ensureLoop nodes mr rest nr tm2).isSome := by
  intro rest
  induction rest with
  | nil => intros; rfl
  | cons n rest ih =>
    intro nr tm1 tm2
    simp only [ensureLoop]
    cases hb : hasRackName nr n.name with
    | true =>
      simp only [if_true]
      exact ih nr tm1 tm2
    | false =>
      simp only [Bool.false_eq_true, if_false]
      cases hd : determinePlacementRack nodes n mr nr with
      | mk nr1 o =>
        cases o with
        | none => rfl
        | some rack => exact ih (nr1.Add rack n.name) _ _

/-- Concrete topology maps for the C8 counterexample: the same map contents
in two iteration orders. -/
def mC8a : LabelMap := [("alpha-zone", ["x", "y", "z"]), ("beta-zone", ["x", "y", "z"])]

/-- The same contents as mC8a, iterated in the opposite order. -/
def mC8b : LabelMap := [("beta-zone", ["x", "y", "z"]), ("alpha-zone", ["x", "y", "z"])]

/-- C8 counterexample: two permutations of the same topology map contents
(two zone-matching keys) make determineFailureDomain return different keys,
because GetKeyValues takes the first key containing "zone" in iteration
order; the claim that the whole result (type, key and values) is independent
of the map iteration order is false. -/
theorem C8_order_dependent_cex :
    mC8a.Perm mC8b ∧
    (determineFailureDomain ⟨"", some ⟨mC8a⟩, false, false, 0⟩ []).toOption ≠
    (determineFailureDomain ⟨"", some ⟨mC8b⟩, false, false, 0⟩ []).toOption := by
  constructor
  · exact List.Perm.swap ("beta-zone", ["x", "y", "z"]) ("alpha-zone", ["x", "y", "z"]) []
  · have h1 : determineFailureDomain ⟨"", some ⟨mC8a⟩, false, false, 0⟩ [] =
        Except.ok ⟨"zone", "alpha-zone", ["x", "y", "z"]⟩ := rfl
    have h2 : determineFailureDomain ⟨"", some ⟨mC8b⟩, false, false, 0⟩ [] =
        Except.ok ⟨"zone", "beta-zone", ["x", "y", "z"]⟩ := rfl
    rw [h1, h2]
    intro h
    simp only [Except.toOption, Option.some.injEq, FailureDomain.mk.injEq] at h
    exact absurd h.2.1 (by decide)

set_option maxHeartbeats 1600000 in
/-- C8 (amended): the failure-domain TYPE is independent of the iteration
order of the topology map (for genuine maps, i.e. lists with no duplicate
keys): permuting the map never changes which of the four branches commits.
The key and values are order-dependent (see the counterexample). -/
theorem C8_type_deterministic (fds : String) (flex arb : Bool) (mn : Nat)
    (nodes : List Node) (l1 l2 : LabelMap) (hperm : l1.Perm l2)
    (hnd : (l1.map Prod.fst).Nodup) :
    fdTypeOf (determineFailureDomain ⟨fds, some ⟨l1⟩, flex, arb, mn⟩ nodes) =
    fdTypeOf (determineFailureDomain ⟨fds, some ⟨l2⟩, flex, arb, mn⟩ nodes) := by
  have hfperm := filterDeprecatedLabels_perm hperm hnd
  by_cases hfd : fds ≠ ""
  · rw [determineFailureDomain_cached_branch ⟨fds, some ⟨l1⟩, flex, arb, mn⟩
      nodes ⟨l1⟩ rfl hfd,
      determineFailureDomain_cached_branch ⟨fds, some ⟨l2⟩, flex, arb, mn⟩
      nodes ⟨l2⟩ rfl hfd]
    rfl
  · have hfd' : fds = "" := by
      by_contra h
      exact hfd h
    cases hflex : flex with
    | true =>
      rw [determineFailureDomain_flex_branch ⟨fds, some ⟨l1⟩, true, arb, mn⟩
        nodes ⟨l1⟩ rfl hfd' rfl,
        determineFailureDomain_flex_branch ⟨fds, some ⟨l2⟩, true, arb, mn⟩
        nodes ⟨l2⟩ rfl hfd' rfl]
      rfl
    | false =>
      have hze : zoneEligible arb (filterDeprecatedLabels ⟨l1⟩).Labels =
          zoneEligible arb (filterDeprecatedLabels ⟨l2⟩).Labels :=
        any_perm _ hfperm
      cases hz2 : zoneEligible arb (filterDeprecatedLabels ⟨l2⟩).Labels with
      | true =>
        rw [hz2] at hze
        rw [determineFailureDomain_zone_branch ⟨fds, some ⟨l1⟩, false, arb, mn⟩
          nodes ⟨l1⟩ rfl hfd' rfl hze,
          determineFailureDomain_zone_branch ⟨fds, some ⟨l2⟩, false, arb, mn⟩
          nodes ⟨l2⟩ rfl hfd' rfl hz2]
        rfl
      | false =>
        rw [hz2] at hze
        rw [determineFailureDomain_rack_branch ⟨fds, some ⟨l1⟩, false, arb, mn⟩
          nodes ⟨l1⟩ rfl hfd' rfl hze,
          determineFailureDomain_rack_branch ⟨fds, some ⟨l2⟩, false, arb, mn⟩
          nodes ⟨l2⟩ rfl hfd' rfl hz2]
        have hsome : (ensureNodeRacks nodes mn (filterDeprecatedLabels ⟨l1⟩)).isSome =
            (ensureNodeRacks nodes mn (filterDeprecatedLabels ⟨l2⟩)).isSome :=
          ensureLoop_isSome_tm nodes mn nodes (collectExistingRacks nodes) _ _
        cases he1 : ensureNodeRacks nodes mn (filterDeprecatedLabels ⟨l1⟩) with
        | none =>
          rw [he1] at hsome
          cases he2 : ensureNodeRacks nodes mn (filterDeprecatedLabels ⟨l2⟩) with
          | none => rfl
          | some p =>
            rw [he2] at hsome
            exact absurd hsome (by simp)
        | some p =>
          rw [he1] at hsome
          cases he2 : ensureNodeRacks nodes mn (filterDeprecatedLabels ⟨l2⟩) with
          | none =>
            rw [he2] at hsome
            exact absurd hsome (by simp)
          | some q =>
            obtain ⟨nr1, m1⟩ := p
            obtain ⟨nr2, m2⟩ := q
            rfl

theorem C8_type_deterministic_witness :
    fdTypeOf (determineFailureDomain ⟨"", some ⟨mC8a⟩, false, false, 0⟩ []) =
    fdTypeOf (determineFailureDomain ⟨"", some ⟨mC8b⟩, false, false, 0⟩ []) :=
  C8_type_deterministic "" false false 0 [] mC8a mC8b
    (List.Perm.swap ("beta-zone", ["x", "y", "z"]) ("alpha-zone", ["x", "y", "z"]) [])
    (by decide)

/-! ### Shared machinery for the ensureNodeRacks inductions (C2, C7) -/

theorem str_length_pos {s : String} (h : s ≠ "") : 0 < s.length := by
  cases s with
  | mk data =>
    cases data with
    | nil => exact absurd rfl h
    | cons c cs => simp [String.length]

theorem collectRacksFoldInner_nil (n : Node) :
    ∀ (labels : List (String × String)) (acc : NodeTopologyMap),
      (∀ p ∈ labels, strContains p.1 "rack" = false) →
      labels.foldl (fun acc2 p =>
        if strContains p.1 "rack" then
          if acc2.Contains p.2 n.name then acc2 else acc2.Add p.2 n.name
        else acc2) acc = acc := by
  intro labels
  induction labels with
  | nil => intro acc _; rfl
  | cons p t ih =>
    intro acc h
    simp only [List.foldl_cons, h p (List.mem_cons_self p t), Bool.false_eq_true,
      if_false]
    exact ih acc (fun q hq => h q (List.mem_cons_of_mem p hq))

theorem collectExistingRacks_nil {nodes : List Node}
    (h : ∀ n ∈ nodes, ∀ p ∈ n.labels, strContains p.1 "rack" = false) :
    collectExistingRacks nodes = ⟨[]⟩ := by
  unfold collectExistingRacks
  have hgen : ∀ (l : List Node) (acc : NodeTopologyMap),
      (∀ n ∈ l, ∀ p ∈ n.labels, strContains p.1 "rack" = false) →
      l.foldl (fun acc n =>
        n.labels.foldl (fun acc2 p =>
          if strContains p.1 "rack" then
            if acc2.Contains p.2 n.name then acc2 else acc2.Add p.2 n.name
          else acc2) acc) acc = acc := by
    intro l
    induction l with
    | nil => intro acc _; rfl
    | cons n t ih =>
      intro acc hl
      simp only [List.foldl_cons]
      rw [collectRacksFoldInner_nil n n.labels acc (hl n (List.mem_cons_self n t))]
      exact ih acc (fun m hm => hl m (List.mem_cons_of_mem n hm))
  exact hgen nodes ⟨[]⟩ h

theorem lookupVals_eq_none_iff (l : LabelMap) (k : String) :
    lookupVals l k = none ↔ k ∉ l.map Prod.fst := by
  induction l with
  | nil => simp [lookupVals]
  | cons e t ih =>
    obtain ⟨a, vs⟩ := e
    by_cases hak : a = k
    · subst hak
      simp [lookupVals_cons_eq]
    · rw [lookupVals_cons_ne hak]
      simp only [List.map_cons, List.mem_cons]
      rw [ih]
      constructor
      · rintro hni (h | h)
        · exact hak h.symm
        · exact hni h
      · intro hn
        exact fun h => hn (Or.inr h)

theorem lookupVals_isSome_of_mem_fst {l : LabelMap} {k : String}
    (h : k ∈ l.map Prod.fst) : (lookupVals l k).isSome = true := by
  cases hl : lookupVals l k with
  | none => exact absurd h ((lookupVals_eq_none_iff l k).mp hl)
  | some vs => rfl

theorem mem_addValue_cases {l : LabelMap} {k v : String} {e : String × List String}
    (h : e ∈ addValue l k v) :
    e ∈ l ∨ (∃ vs, (k, vs) ∈ l ∧ e = (k, vs ++ [v])) ∨ e = (k, [v]) := by
  induction l with
  | nil =>
    simp only [addValue, List.mem_singleton] at h
    exact Or.inr (Or.inr h)
  | cons f t ih =>
    obtain ⟨a, vs⟩ := f
    simp only [addValue] at h
    by_cases hak : a = k
    · subst hak
      rw [if_pos rfl] at h
      rcases List.mem_cons.mp h with rfl | h'
      · exact Or.inr (Or.inl ⟨vs, List.mem_cons_self _ _, rfl⟩)
      · exact Or.inl (List.mem_cons_of_mem _ h')
    · rw [if_neg hak] at h
      rcases List.mem_cons.mp h with rfl | h'
      · exact Or.inl (List.mem_cons_self _ _)
      · rcases ih h' with h2 | ⟨ws, hw, he⟩ | h2
        · exact Or.inl (List.mem_cons_of_mem _ h2)
        · exact Or.inr (Or.inl ⟨ws, List.mem_cons_of_mem _ hw, he⟩)
        · exact Or.inr (Or.inr h2)

theorem lookupVals_addValue_self (l : LabelMap) (k v : String) :
    lookupVals (addValue l k v) k = some ((lookupVals l k).getD [] ++ [v]) := by
  induction l with
  | nil => simp [addValue, lookupVals]
  | cons f t ih =>
    obtain ⟨a, vs⟩ := f
    simp only [addValue]
    by_cases hak : a = k
    · subst hak
      rw [if_pos rfl, lookupVals_cons_eq, lookupVals_cons_eq]
      rfl
    · rw [if_neg hak, lookupVals_cons_ne hak, lookupVals_cons_ne hak, ih]

theorem lookupVals_addValue_ne (l : LabelMap) (k v k' : String) (h : k' ≠ k) :
    lookupVals (addValue l k v) k' = lookupVals l k' := by
  induction l with
  | nil =>
    show lookupVals [(k, [v])] k' = none
    rw [lookupVals_cons_ne (fun hh => h hh.symm) [v] []]
    rfl
  | cons f t ih =>
    obtain ⟨a, vs⟩ := f
    simp only [addValue]
    by_cases hak : a = k
    · subst hak
      rw [if_pos rfl, lookupVals_cons_ne (fun hh => h hh.symm),
        lookupVals_cons_ne (fun hh => h hh.symm)]
    · rw [if_neg hak]
      by_cases hak' : a = k'
      · subst hak'
        rw [lookupVals_cons_eq, lookupVals_cons_eq]
      · rw [lookupVals_cons_ne hak', lookupVals_cons_ne hak', ih]

theorem map_fst_addValue (l : LabelMap) (k v : String) :
    (addValue l k v).map Prod.fst =
      if (lookupVals l k).isSome then l.map Prod.fst else l.map Prod.fst ++ [k] := by
  induction l with
  | nil => simp [addValue, lookupVals]
  | cons f t ih =>
    obtain ⟨a, vs⟩ := f
    simp only [addValue]
    by_cases hak : a = k
    · subst hak
      rw [if_pos rfl]
      simp only [List.map_cons, lookupVals_cons_eq, Option.isSome_some, if_true]
    · rw [if_neg hak, lookupVals_cons_ne hak]
      simp only [List.map_cons, ih]
      split <;> rfl

theorem contains_true_iff (l : List String) (a : String) :
    l.contains a = true ↔ a ∈ l := by
  unfold List.contains
  exact List.elem_iff

theorem hasRackName_addValue_mono {l : LabelMap} {nm : String} (k v : String)
    (h : hasRackName ⟨l⟩ nm = true) : hasRackName ⟨addValue l k v⟩ nm = true := by
  unfold hasRackName at h ⊢
  rw [List.any_eq_true] at h ⊢
  obtain ⟨e, he, hc⟩ := h
  rw [contains_true_iff] at hc
  induction l with
  | nil => simp at he
  | cons f t ih =>
    obtain ⟨a, vs⟩ := f
    simp only [addValue]
    rcases List.mem_cons.mp he with heq | he'
    · subst heq
      by_cases hak : a = k
      · rw [if_pos hak]
        refine ⟨(a, vs ++ [v]), List.mem_cons_self _ _, ?_⟩
        rw [contains_true_iff]
        exact List.mem_append_left _ hc
      · rw [if_neg hak]
        refine ⟨(a, vs), List.mem_cons_self _ _, ?_⟩
        rw [contains_true_iff]
        exact hc
    · by_cases hak : a = k
      · rw [if_pos hak]
        refine ⟨e, List.mem_cons_of_mem _ he', ?_⟩
        rw [contains_true_iff]
        exact hc
      · rw [if_neg hak]
        obtain ⟨e2, he2, hc2⟩ := ih he'
        exact ⟨e2, List.mem_cons_of_mem _ he2, hc2⟩

theorem hasRackName_addValue_self (l : LabelMap) (k v : String) :
    hasRackName ⟨addValue l k v⟩ v = true := by
  unfold hasRackName
  rw [List.any_eq_true]
  induction l with
  | nil =>
    refine ⟨(k, [v]), List.mem_singleton.mpr rfl, ?_⟩
    rw [contains_true_iff]
    exact List.mem_singleton.mpr rfl
  | cons f t ih =>
    obtain ⟨a, vs⟩ := f
    simp only [addValue]
    by_cases hak : a = k
    · rw [if_pos hak]
      refine ⟨(a, vs ++ [v]), List.mem_cons_self _ _, ?_⟩
      rw [contains_true_iff]
      exact List.mem_append_right _ (List.mem_singleton.mpr rfl)
    · rw [if_neg hak]
      obtain ⟨e2, he2, hc2⟩ := ih
      exact ⟨e2, List.mem_cons_of_mem _ he2, hc2⟩

theorem contains_false_of_not_hasRackName {nr : NodeTopologyMap} {nm : String}
    (h : hasRackName nr nm = false) (rack : String) :
    nr.Contains rack nm = false := by
  unfold NodeTopologyMap.Contains
  cases hl : lookupVals nr.Labels rack with
  | none => rfl
  | some vs =>
    have hmem := lookupVals_mem hl
    unfold hasRackName at h
    rw [← Bool.not_eq_true, List.any_eq_true] at h
    cases hc : vs.contains nm with
    | false => exact hc
    | true => exact absurd ⟨(rack, vs), hmem, hc⟩ h

theorem firstFreeRack_spec {l : LabelMap} {i : Nat} {r : String}
    (h : firstFreeRack l i = some r) : lookupVals l r = none := by
  unfold firstFreeRack at h
  cases hf : (List.range (i + 1)).find?
      (fun j => (lookupVals l (mkRackName j)).isNone) with
  | none =>
    rw [hf] at h
    exact Option.noConfusion h
  | some j =>
    rw [hf] at h
    simp only [Option.some.injEq] at h
    subst h
    have hp := List.find?_some hf
    simpa [Option.isNone_iff_eq_none] using hp

theorem mem_synthesizeLoop {e : String × List String} :
    ∀ {l : LabelMap} {i fuel : Nat}, e ∈ synthesizeLoop l i fuel →
      e ∈ l ∨ e.2 = [] := by
  intro l i fuel
  induction fuel generalizing l i with
  | zero => exact fun h => Or.inl h
  | succ f ih =>
    intro h
    simp only [synthesizeLoop] at h
    cases hf : firstFreeRack l i with
    | some r =>
      rw [hf] at h
      rcases ih h with h2 | h2
      · rcases List.mem_append.mp h2 with h3 | h3
        · exact Or.inl h3
        · right
          rw [List.mem_singleton.mp h3]
      · exact Or.inr h2
    | none =>
      rw [hf] at h
      exact ih h

theorem nodup_fst_synthesizeLoop :
    ∀ {l : LabelMap} (i fuel : Nat), (l.map Prod.fst).Nodup →
      ((synthesizeLoop l i fuel).map Prod.fst).Nodup := by
  intro l i fuel
  induction fuel generalizing l i with
  | zero => exact fun h => h
  | succ f ih =>
    intro h
    simp only [synthesizeLoop]
    cases hf : firstFreeRack l i with
    | some r =>
      apply ih
      rw [List.map_append]
      refine List.Nodup.append h (List.nodup_singleton r) ?_
      intro a ha hb
      rw [List.mem_singleton.mp hb] at ha
      exact (lookupVals_eq_none_iff l r).mp (firstFreeRack_spec hf) ha
    | none => exact ih _ h

theorem hasRackName_synthesizeLoop (nm : String) :
    ∀ (l : LabelMap) (i fuel : Nat),
      hasRackName ⟨synthesizeLoop l i fuel⟩ nm = hasRackName ⟨l⟩ nm := by
  intro l i fuel
  induction fuel generalizing l i with
  | zero => rfl
  | succ f ih =>
    simp only [synthesizeLoop]
    cases hf : firstFreeRack l i with
    | some r =>
      rw [ih]
      unfold hasRackName
      rw [List.any_append]
      simp
    | none => exact ih _ _

theorem mem_candidateRacks_keys {nodes : List Node} {az : String} {l : LabelMap}
    {r : String} (h : r ∈ candidateRacks nodes az l) : r ∈ l.map Prod.fst := by
  unfold candidateRacks at h
  split at h
  · obtain ⟨e, he, hre⟩ := List.mem_map.mp h
    exact List.mem_map.mpr ⟨e, (List.filter_sublist l).subset he, hre⟩
  · exact h

theorem chooseRack_mem {l : LabelMap} {cand : List String} {r : String}
    (h : chooseRack l cand = some r) : r ∈ cand := by
  unfold chooseRack at h
  cases hs : sortStrings cand with
  | nil =>
    rw [hs] at h
    exact Option.noConfusion h
  | cons r0 rest =>
    rw [hs] at h
    simp only [Option.some.injEq] at h
    subst h
    have hperm := sortStrings_perm cand
    rw [hs] at hperm
    have hmem : pickMinRack l (r0 :: rest) r0 ∈ r0 :: rest := by
      rcases List.mem_cons.mp (pickMinRack_mem l (r0 :: rest) r0) with h2 | h2
      · rw [h2]
        exact List.mem_cons_self r0 rest
      · exact h2
    exact hperm.mem_iff.mp hmem

theorem mem_candidateRacks_pos {nodes : List Node} {az : String} {l : LabelMap}
    {r : String} (haz : az ≠ "") (h : r ∈ candidateRacks nodes az l) :
    ∃ vs, (r, vs) ∈ l ∧
      (vs = [] ∨ ∃ nm ∈ vs, memberMatchesAZ nodes nm az = true) := by
  unfold candidateRacks at h
  rw [if_pos (str_length_pos haz)] at h
  obtain ⟨e, he, hre⟩ := List.mem_map.mp h
  have hel := List.mem_of_mem_filter he
  have hpred := List.of_mem_filter he
  refine ⟨e.2, ?_, ?_⟩
  · rw [← hre]
    exact hel
  · rcases Bool.or_eq_true .. |>.mp hpred with h1 | h1
    · exact Or.inl (List.isEmpty_iff.mp h1)
    · right
      rw [List.any_eq_true] at h1
      exact h1

theorem nodeHasZoneValue_iff (n : Node) (az : String) :
    nodeHasZoneValue n az = true ↔
      ∃ p ∈ n.labels, isTopologyZoneLabel p.1 = true ∧ p.2 = az := by
  unfold nodeHasZoneValue
  rw [List.any_eq_true]
  constructor
  · rintro ⟨p, hp, hkey⟩
    rw [List.any_eq_true] at hkey
    obtain ⟨key, hkm, hb⟩ := hkey
    simp only [Bool.and_eq_true, beq_iff_eq] at hb
    obtain ⟨⟨h1, h2⟩, h3⟩ := hb
    refine ⟨p, hp, ?_, h3⟩
    unfold isTopologyZoneLabel
    rw [List.any_eq_true]
    exact ⟨key, hkm, by simp [h1, h2]⟩
  · rintro ⟨p, hp, hzl, hveq⟩
    refine ⟨p, hp, ?_⟩
    unfold isTopologyZoneLabel at hzl
    rw [List.any_eq_true] at hzl ⊢
    obtain ⟨key, hkm, hb⟩ := hzl
    simp only [Bool.and_eq_true] at hb
    exact ⟨key, hkm, by simp [hb.1, hb.2, hveq]⟩

/-- Per-node zone-label consistency: all zone-matching labels of a node
carry one value. -/
def NodeZoneConsistent (n : Node) : Prop :=
  ∀ p ∈ n.labels, ∀ q ∈ n.labels,
    isTopologyZoneLabel p.1 = true → isTopologyZoneLabel q.1 = true → p.2 = q.2

/-- The zone-consistency invariant of a rack membership map: no rack holds
two node names whose discoverable zones are both known and differ. -/
def ZoneConsistent (nodes : List Node) (nr : NodeTopologyMap) : Prop :=
  ∀ e ∈ nr.Labels, ∀ a ∈ e.2, ∀ b ∈ e.2,
    zoneOfName nodes a ≠ "" → zoneOfName nodes b ≠ "" →
    zoneOfName nodes a = zoneOfName nodes b

theorem zoneOfName_eq_of_member_match {nodes : List Node} {nm az : String}
    (hzone : ∀ n ∈ nodes, NodeZoneConsistent n) (haz : az ≠ "")
    (h : memberMatchesAZ nodes nm az = true) : zoneOfName nodes nm = az := by
  unfold memberMatchesAZ at h
  cases hfn : firstNodeNamed nodes nm with
  | none =>
    rw [hfn] at h
    exact Bool.noConfusion h
  | some n =>
    rw [hfn] at h
    obtain ⟨p, hp, hpz, hpv⟩ := (nodeHasZoneValue_iff n az).mp h
    have hn : n ∈ nodes :=
      List.mem_of_find?_eq_some hfn
    unfold zoneOfName
    rw [hfn]
    show findTargetAZ n.labels = az
    unfold findTargetAZ
    cases hf : n.labels.find? (fun p => isTopologyZoneLabel p.1 && !(p.2 == "")) with
    | none =>
      exfalso
      have hnp := List.find?_eq_none.mp hf p hp
      apply hnp
      rw [hpz, hpv]
      simp [haz]
    | some q =>
      have hq := List.find?_some hf
      have hqmem := List.mem_of_find?_eq_some hf
      simp only [Bool.and_eq_true] at hq
      show q.2 = az
      rw [hzone n hn q hqmem p hp hq.1 hpz, hpv]

theorem zoneOfName_eq_targetAZ {done rest : List Node} {n : Node}
    (hnames : ∀ d ∈ done, d.name ≠ n.name) :
    zoneOfName (done ++ n :: rest) n.name = findTargetAZ n.labels := by
  unfold zoneOfName firstNodeNamed
  rw [List.find?_append]
  have h1 : done.find? (fun d => d.name == n.name) = none :=
    List.find?_eq_none.mpr (fun d hd => by simp [hnames d hd])
  rw [h1, List.find?_cons_of_pos _ (by simp)]
  rfl

/-! ### C2: no rack mixes two discoverable zones -/

theorem ZoneConsistent_place (nodes : List Node) (x : Node)
    (hzone : ∀ n ∈ nodes, NodeZoneConsistent n)
    (l1 : LabelMap) (rack : String)
    (hnd1 : (l1.map Prod.fst).Nodup)
    (hzc1 : ZoneConsistent nodes ⟨l1⟩)
    (hzx : zoneOfName nodes x.name = findTargetAZ x.labels)
    (hcand : rack ∈ candidateRacks nodes (findTargetAZ x.labels) l1) :
    ZoneConsistent nodes ⟨addValue l1 rack x.name⟩ := by
  intro e he a ha b hb hza hzb
  rcases mem_addValue_cases he with hel | ⟨vs, hvs, rfl⟩ | rfl
  · exact hzc1 e hel a ha b hb hza hzb
  · by_cases haz : findTargetAZ x.labels = ""
    · have hax : a ≠ x.name := fun h => hza (by rw [h, hzx, haz])
      have hbx : b ≠ x.name := fun h => hzb (by rw [h, hzx, haz])
      have ha' : a ∈ vs := by
        rcases List.mem_append.mp ha with h | h
        · exact h
        · exact absurd (List.mem_singleton.mp h) hax
      have hb' : b ∈ vs := by
        rcases List.mem_append.mp hb with h | h
        · exact h
        · exact absurd (List.mem_singleton.mp h) hbx
      exact hzc1 (rack, vs) hvs a ha' b hb' hza hzb
    · obtain ⟨vs', hvs', hprop⟩ := mem_candidateRacks_pos haz hcand
      have hvv : vs' = vs := by
        have h1 := lookupVals_of_mem_nodup hvs hnd1
        have h2 := lookupVals_of_mem_nodup hvs' hnd1
        rw [h1] at h2
        injection h2 with h3
        exact h3.symm
      rw [hvv] at hprop
      rcases hprop with rfl | ⟨m, hm, hmatch⟩
      · have ha' : a = x.name := by
          rcases List.mem_append.mp ha with h | h
          · exact absurd h (List.not_mem_nil a)
          · exact List.mem_singleton.mp h
        have hb' : b = x.name := by
          rcases List.mem_append.mp hb with h | h
          · exact absurd h (List.not_mem_nil b)
          · exact List.mem_singleton.mp h
        rw [ha', hb']
      · have hzm : zoneOfName nodes m = findTargetAZ x.labels :=
          zoneOfName_eq_of_member_match hzone haz hmatch
        have hzmne : zoneOfName nodes m ≠ "" := by
          rw [hzm]
          exact haz
        have key : ∀ c ∈ vs ++ [x.name], zoneOfName nodes c ≠ "" →
            zoneOfName nodes c = findTargetAZ x.labels := by
          intro c hc hzc
          rcases List.mem_append.mp hc with h | h
          · rw [hzc1 (rack, vs) hvs c h m hm hzc hzmne, hzm]
          · rw [List.mem_singleton.mp h, hzx]
        rw [key a ha hza, key b hb hzb]
  · have ha' : a = x.name := List.mem_singleton.mp ha
    have hb' : b = x.name := List.mem_singleton.mp hb
    rw [ha', hb']

theorem ensureLoop_zone_invariant (nodes : List Node) (mr : Nat)
    (hzone : ∀ n ∈ nodes, NodeZoneConsistent n) :
    ∀ (rest done : List Node) (nr tm nr' tm' : NodeTopologyMap),
      nodes = done ++ rest →
      (∀ n ∈ done, hasRackName nr n.name = true) →
      (nr.Labels.map Prod.fst).Nodup →
      ZoneConsistent nodes nr →
      ensureLoop nodes mr rest nr tm = some (nr', tm') →
      ZoneConsistent nodes nr' := by
  intro rest
  induction rest with
  | nil =>
    intro done nr tm nr' tm' hsplit hdone hnd hzc hrun
    simp only [ensureLoop, Option.some.injEq, Prod.mk.injEq] at hrun
    rw [← hrun.1]
    exact hzc
  | cons x rest ih =>
    intro done nr tm nr' tm' hsplit hdone hnd hzc hrun
    simp only [ensureLoop] at hrun
    cases hx : hasRackName nr x.name with
    | true =>
      simp only [hx, reduceIte] at hrun
      refine ih (done ++ [x]) nr tm nr' tm' ?_ ?_ hnd hzc hrun
      · rw [hsplit, List.append_assoc]
        rfl
      · intro n hn
        rcases List.mem_append.mp hn with h | h
        · exact hdone n h
        · rw [List.mem_singleton.mp h]
          exact hx
    | false =>
      simp only [hx, Bool.false_eq_true, reduceIte] at hrun
      have hdef : determinePlacementRack nodes x mr nr =
          (⟨synthesizeLoop nr.Labels nr.Labels.length (mr - nr.Labels.length)⟩,
           chooseRack (synthesizeLoop nr.Labels nr.Labels.length (mr - nr.Labels.length))
             (candidateRacks nodes (findTargetAZ x.labels)
               (synthesizeLoop nr.Labels nr.Labels.length (mr - nr.Labels.length)))) := rfl
      rw [hdef] at hrun
      cases hcr : chooseRack (synthesizeLoop nr.Labels nr.Labels.length
          (mr - nr.Labels.length))
          (candidateRacks nodes (findTargetAZ x.labels)
            (synthesizeLoop nr.Labels nr.Labels.length (mr - nr.Labels.length))) with
      | none =>
        rw [hcr] at hrun
        exact Option.noConfusion hrun
      | some rack =>
        rw [hcr] at hrun
        have hrun2 : ensureLoop nodes mr rest
            ((⟨synthesizeLoop nr.Labels nr.Labels.length (mr - nr.Labels.length)⟩ :
              NodeTopologyMap).Add rack x.name)
            (if tm.Contains RackTopologyKey rack = true then tm
             else tm.Add RackTopologyKey rack) = some (nr', tm') := hrun
        clear hrun
        have hnames : ∀ d ∈ done, d.name ≠ x.name := by
          intro d hd heq
          rw [← heq] at hx
          rw [hdone d hd] at hx
          exact Bool.noConfusion hx
        have hx1 : hasRackName ⟨synthesizeLoop nr.Labels nr.Labels.length
            (mr - nr.Labels.length)⟩ x.name = false := by
          rw [hasRackName_synthesizeLoop]
          exact hx
        have hAdd : (NodeTopologyMap.Add ⟨synthesizeLoop nr.Labels nr.Labels.length
            (mr - nr.Labels.length)⟩ rack x.name) =
            ⟨addValue (synthesizeLoop nr.Labels nr.Labels.length
              (mr - nr.Labels.length)) rack x.name⟩ := by
          unfold NodeTopologyMap.Add
          rw [contains_false_of_not_hasRackName hx1 rack]
          rfl
        rw [hAdd] at hrun2
        have hnd1 : ((synthesizeLoop nr.Labels nr.Labels.length
            (mr - nr.Labels.length)).map Prod.fst).Nodup :=
          nodup_fst_synthesizeLoop _ _ hnd
        have hrmem : rack ∈ (synthesizeLoop nr.Labels nr.Labels.length
            (mr - nr.Labels.length)).map Prod.fst :=
          mem_candidateRacks_keys (chooseRack_mem hcr)
        have hnd2 : ((addValue (synthesizeLoop nr.Labels nr.Labels.length
            (mr - nr.Labels.length)) rack x.name).map Prod.fst).Nodup := by
          rw [map_fst_addValue, if_pos (lookupVals_isSome_of_mem_fst hrmem)]
          exact hnd1
        have hzc1 : ZoneConsistent nodes ⟨synthesizeLoop nr.Labels nr.Labels.length
            (mr - nr.Labels.length)⟩ := by
          intro e he a ha b hb hza hzb
          rcases mem_synthesizeLoop he with h | h
          · exact hzc e h a ha b hb hza hzb
          · rw [h] at ha
            exact absurd ha (List.not_mem_nil a)
        have hzx : zoneOfName nodes x.name = findTargetAZ x.labels := by
          rw [hsplit]
          exact zoneOfName_eq_targetAZ hnames
        refine ih (done ++ [x]) _ _ nr' tm' ?_ ?_ hnd2 ?_ hrun2
        · rw [hsplit, List.append_assoc]
          rfl
        · intro n hn
          rcases List.mem_append.mp hn with h | h
          · exact hasRackName_addValue_mono rack x.name
              (by rw [hasRackName_synthesizeLoop]; exact hdone n h)
          · rw [List.mem_singleton.mp h]
            exact hasRackName_addValue_self _ rack x.name
        · exact ZoneConsistent_place nodes x hzone _ rack hnd1 hzc1 hzx
            (chooseRack_mem hcr)

/-- C2 (amended): starting from nodes with no pre-existing rack labels, and
provided every node's zone-matching labels agree on a single value (so that
"the node's discoverable zone" is well defined), ensureNodeRacks never
places two node names whose discoverable zones are both known and differ
into the same rack; a node with no discoverable zone may be placed in any
rack. -/
theorem C2_rack_zone_invariant (nodes : List Node) (minRacks : Nat)
    (tm0 nr tm : NodeTopologyMap)
    (hnorack : ∀ n ∈ nodes, ∀ p ∈ n.labels, strContains p.1 "rack" = false)
    (hzone : ∀ n ∈ nodes, NodeZoneConsistent n)
    (hrun : ensureNodeRacks nodes minRacks tm0 = some (nr, tm)) :
    ZoneConsistent nodes nr := by
  unfold ensureNodeRacks at hrun
  rw [collectExistingRacks_nil hnorack] at hrun
  refine ensureLoop_zone_invariant nodes minRacks hzone nodes [] ⟨[]⟩ tm0 nr tm
    rfl ?_ ?_ ?_ hrun
  · intro n hn
    exact absurd hn (List.not_mem_nil n)
  · simp
  · intro e he
    exact absurd he (List.not_mem_nil e)

/-- Concrete nodes for the C2 counterexample: n1 carries two conflicting
zone labels (its discoverable zone — the first match — is "a", but it also
carries a label valued "b"), n2 is in zone "b". -/
def nodesC2 : List Node :=
  [⟨"n1", [(topoZoneKey, "a"), (fdZoneKey, "b")]⟩, ⟨"n2", [(topoZoneKey, "b")]⟩]

/-- C2 counterexample: with no pre-existing rack labels, ensureNodeRacks
puts n1 (discoverable zone "a") and n2 (discoverable zone "b") into the same
rack0, because the member check accepts any zone-matching label of a member
equal to the target's zone — n1's second label "b" — even though n1's own
discoverable zone is "a".  The claim as stated is therefore false. -/
theorem C2_zone_mixing_cex :
    (∀ n ∈ nodesC2, ∀ p ∈ n.labels, strContains p.1 "rack" = false) ∧
    ensureNodeRacks nodesC2 1 ⟨[]⟩ =
      some (⟨[("rack0", ["n1", "n2"])]⟩, ⟨[(RackTopologyKey, ["rack0"])]⟩) ∧
    zoneOfName nodesC2 "n1" = "a" ∧ zoneOfName nodesC2 "n2" = "b" := by
  refine ⟨by decide, rfl, rfl, rfl⟩

/-- Concrete nodes for the C2 witness: one node per zone, consistent
labels. -/
def nodesW2 : List Node := [⟨"p1", [(topoZoneKey, "a")]⟩, ⟨"p2", [(topoZoneKey, "b")]⟩]

theorem C2_rack_zone_invariant_witness :
    ZoneConsistent nodesW2
      ⟨[("rack0", ["p1"]), ("rack1", ["p2"]), ("rack2", [])]⟩ :=
  C2_rack_zone_invariant nodesW2 3 ⟨[]⟩
    ⟨[("rack0", ["p1"]), ("rack1", ["p2"]), ("rack2", [])]⟩
    ⟨[(RackTopologyKey, ["rack0", "rack1"])]⟩
    (by decide) (by unfold NodeZoneConsistent; decide) rfl

/-! ### C7: at least three racks, balanced sizes -/

theorem chooseRack_min {l : LabelMap} {cand : List String} {r : String}
    (h : chooseRack l cand = some r) :
    ∀ r' ∈ cand, rackLen l r ≤ rackLen l r' := by
  unfold chooseRack at h
  cases hs : sortStrings cand with
  | nil =>
    rw [hs] at h
    exact Option.noConfusion h
  | cons r0 rest =>
    rw [hs] at h
    simp only [Option.some.injEq] at h
    subst h
    intro r' hr'
    have hperm := sortStrings_perm cand
    rw [hs] at hperm
    exact (pickMinRack_le l (r0 :: rest) r0).2 r' (hperm.mem_iff.mpr hr')

theorem mem_addValue_cases_present {l : LabelMap} {k v : String}
    {e : String × List String} (hp : k ∈ l.map Prod.fst) (h : e ∈ addValue l k v) :
    e ∈ l ∨ (∃ vs, (k, vs) ∈ l ∧ e = (k, vs ++ [v])) := by
  induction l with
  | nil => simp at hp
  | cons f t ih =>
    obtain ⟨a, vs⟩ := f
    simp only [addValue] at h
    by_cases hak : a = k
    · subst hak
      rw [if_pos rfl] at h
      rcases List.mem_cons.mp h with rfl | h'
      · exact Or.inr ⟨vs, List.mem_cons_self _ _, rfl⟩
      · exact Or.inl (List.mem_cons_of_mem _ h')
    · rw [if_neg hak] at h
      rcases List.mem_cons.mp h with rfl | h'
      · exact Or.inl (List.mem_cons_self _ _)
      · have hp' : k ∈ t.map Prod.fst := by
          simp only [List.map_cons, List.mem_cons] at hp
          rcases hp with h2 | h2
          · exact absurd h2.symm hak
          · exact h2
        rcases ih hp' h' with h2 | ⟨ws, hw, he⟩
        · exact Or.inl (List.mem_cons_of_mem _ h2)
        · exact Or.inr ⟨ws, List.mem_cons_of_mem _ hw, he⟩

/-- Balance of a rack membership map: any two member lists differ in length
by at most one. -/
def Balanced (l : LabelMap) : Prop :=
  ∀ e1 ∈ l, ∀ e2 ∈ l, e1.2.length ≤ e2.2.length + 1

theorem Balanced_addValue {l : LabelMap} {r v : String}
    (hnd : (l.map Prod.fst).Nodup) (hr : r ∈ l.map Prod.fst)
    (hmin : ∀ e ∈ l, rackLen l r ≤ e.2.length)
    (hbal : Balanced l) : Balanced (addValue l r v) := by
  intro e1 he1 e2 he2
  rcases mem_addValue_cases_present hr he1 with h1 | ⟨vs1, hv1, rfl⟩
  · rcases mem_addValue_cases_present hr he2 with h2 | ⟨vs2, hv2, rfl⟩
    · exact hbal e1 h1 e2 h2
    · have h3 : e1.2.length ≤ vs2.length + 1 := hbal e1 h1 (r, vs2) hv2
      show e1.2.length ≤ (vs2 ++ [v]).length + 1
      simp only [List.length_append, List.length_singleton]
      omega
  · rcases mem_addValue_cases_present hr he2 with h2 | ⟨vs2, hv2, rfl⟩
    · have hlk := lookupVals_of_mem_nodup hv1 hnd
      have hrl : rackLen l r = vs1.length := by
        unfold rackLen
        rw [hlk]
        rfl
      have h4 := hmin e2 h2
      show (vs1 ++ [v]).length ≤ e2.2.length + 1
      simp only [List.length_append, List.length_singleton]
      omega
    · have hlk1 := lookupVals_of_mem_nodup hv1 hnd
      have hlk2 := lookupVals_of_mem_nodup hv2 hnd
      rw [hlk1] at hlk2
      injection hlk2 with h5
      show (vs1 ++ [v]).length ≤ (vs2 ++ [v]).length + 1
      rw [← h5]
      simp only [List.length_append, List.length_singleton]
      omega

theorem ensureLoop_balance (nodes : List Node) :
    ∀ (rest : List Node) (nr tm nr' tm' : NodeTopologyMap),
      (∀ n ∈ rest, n ∈ nodes) →
      nr.Labels.length = 3 → (nr.Labels.map Prod.fst).Nodup →
      ((∀ n ∈ nodes, findTargetAZ n.labels = "") → Balanced nr.Labels) →
      ensureLoop nodes 3 rest nr tm = some (nr', tm') →
      nr'.Labels.length = 3 ∧ (nr'.Labels.map Prod.fst).Nodup ∧
        ((∀ n ∈ nodes, findTargetAZ n.labels = "") → Balanced nr'.Labels) := by
  intro rest
  induction rest with
  | nil =>
    intro nr tm nr' tm' hrest hlen hnd hbal hrun
    simp only [ensureLoop, Option.some.injEq, Prod.mk.injEq] at hrun
    rw [← hrun.1]
    exact ⟨hlen, hnd, hbal⟩
  | cons x rest ih =>
    intro nr tm nr' tm' hrest hlen hnd hbal hrun
    simp only [ensureLoop] at hrun
    cases hx : hasRackName nr x.name with
    | true =>
      simp only [hx, reduceIte] at hrun
      exact ih nr tm nr' tm' (fun n hn => hrest n (List.mem_cons_of_mem x hn))
        hlen hnd hbal hrun
    | false =>
      simp only [hx, Bool.false_eq_true, reduceIte] at hrun
      have hsynth0 : synthesizeLoop nr.Labels nr.Labels.length
          (3 - nr.Labels.length) = nr.Labels := by
        rw [hlen]
        rfl
      have hdef : determinePlacementRack nodes x 3 nr =
          (⟨nr.Labels⟩, chooseRack nr.Labels
            (candidateRacks nodes (findTargetAZ x.labels) nr.Labels)) := by
        unfold determinePlacementRack
        rw [hsynth0]
      rw [hdef] at hrun
      cases hcr : chooseRack nr.Labels
          (candidateRacks nodes (findTargetAZ x.labels) nr.Labels) with
      | none =>
        rw [hcr] at hrun
        exact Option.noConfusion hrun
      | some r =>
        rw [hcr] at hrun
        have hrun2 : ensureLoop nodes 3 rest
            ((⟨nr.Labels⟩ : NodeTopologyMap).Add r x.name)
            (if tm.Contains RackTopologyKey r = true then tm
             else tm.Add RackTopologyKey r) = some (nr', tm') := hrun
        clear hrun
        have hx1 : hasRackName (⟨nr.Labels⟩ : NodeTopologyMap) x.name = false := hx
        have hAdd : ((⟨nr.Labels⟩ : NodeTopologyMap).Add r x.name) =
            ⟨addValue nr.Labels r x.name⟩ := by
          unfold NodeTopologyMap.Add
          rw [contains_false_of_not_hasRackName hx1 r]
          rfl
        rw [hAdd] at hrun2
        have hrmem : r ∈ nr.Labels.map Prod.fst :=
          mem_candidateRacks_keys (chooseRack_mem hcr)
        have hlen2 : (addValue nr.Labels r x.name).length = 3 := by
          have h7 : ((addValue nr.Labels r x.name).map Prod.fst).length =
              (nr.Labels.map Prod.fst).length := by
            rw [map_fst_addValue, if_pos (lookupVals_isSome_of_mem_fst hrmem)]
          rw [List.length_map, List.length_map] at h7
          rw [h7, hlen]
        have hnd2 : ((addValue nr.Labels r x.name).map Prod.fst).Nodup := by
          rw [map_fst_addValue, if_pos (lookupVals_isSome_of_mem_fst hrmem)]
          exact hnd
        have hbal2 : (∀ n ∈ nodes, findTargetAZ n.labels = "") →
            Balanced (addValue nr.Labels r x.name) := by
          intro hzl
          have haz : findTargetAZ x.labels = "" :=
            hzl x (hrest x (List.mem_cons_self x rest))
          rw [haz] at hcr
          have hcand : candidateRacks nodes "" nr.Labels =
              nr.Labels.map Prod.fst := by
            unfold candidateRacks
            rw [if_neg (by decide)]
          rw [hcand] at hcr
          have hmin : ∀ e ∈ nr.Labels, rackLen nr.Labels r ≤ e.2.length := by
            intro e he
            have h5 := chooseRack_min hcr e.1 (List.mem_map.mpr ⟨e, he, rfl⟩)
            have h6 : rackLen nr.Labels e.1 = e.2.length := by
              unfold rackLen
              rw [lookupVals_of_mem_nodup (by exact he) hnd]
              rfl
            rw [h6] at h5
            exact h5
          exact Balanced_addValue hnd hrmem hmin (hbal hzl)
        exact ih _ _ nr' tm' (fun n hn => hrest n (List.mem_cons_of_mem x hn))
          hlen2 hnd2 hbal2 hrun2

/-- C7 (amended): on every non-empty list of nodes with zero pre-existing
rack labels and minimum rack count 3, after ensureNodeRacks completes
successfully exactly 3 distinct racks exist in the rack membership map
(regardless of zones), and when no zone constraint restricts candidate racks
(no node has a discoverable zone) any two rack sizes differ by at most
one. -/
theorem C7_min_racks_balance (nodes : List Node) (tm0 nr tm : NodeTopologyMap)
    (hne : nodes ≠ [])
    (hnorack : ∀ n ∈ nodes, ∀ p ∈ n.labels, strContains p.1 "rack" = false)
    (hrun : ensureNodeRacks nodes 3 tm0 = some (nr, tm)) :
    nr.Labels.length = 3 ∧ (nr.Labels.map Prod.fst).Nodup ∧
      ((∀ n ∈ nodes, findTargetAZ n.labels = "") → Balanced nr.Labels) := by
  unfold ensureNodeRacks at hrun
  rw [collectExistingRacks_nil hnorack] at hrun
  cases hn : nodes with
  | nil => exact absurd hn hne
  | cons x rest =>
    subst hn
    simp only [ensureLoop] at hrun
    have hh : hasRackName (⟨[]⟩ : NodeTopologyMap) x.name = false := rfl
    simp only [hh, Bool.false_eq_true, reduceIte] at hrun
    have hdef : determinePlacementRack (x :: rest) x 3 ⟨[]⟩ =
        (⟨[("rack0", []), ("rack1", []), ("rack2", [])]⟩,
         chooseRack [("rack0", []), ("rack1", []), ("rack2", [])]
           (candidateRacks (x :: rest) (findTargetAZ x.labels)
             [("rack0", []), ("rack1", []), ("rack2", [])])) := rfl
    rw [hdef] at hrun
    have hcand0 : candidateRacks (x :: rest) (findTargetAZ x.labels)
        [("rack0", []), ("rack1", []), ("rack2", [])] =
        ["rack0", "rack1", "rack2"] := by
      unfold candidateRacks
      split <;> rfl
    rw [hcand0] at hrun
    have hcr : chooseRack [("rack0", []), ("rack1", []), ("rack2", [])]
        ["rack0", "rack1", "rack2"] = some "rack0" := rfl
    rw [hcr] at hrun
    have hrun2 : ensureLoop (x :: rest) 3 rest
        ((⟨[("rack0", []), ("rack1", []), ("rack2", [])]⟩ :
          NodeTopologyMap).Add "rack0" x.name)
        (if tm0.Contains RackTopologyKey "rack0" = true then tm0
         else tm0.Add RackTopologyKey "rack0") = some (nr, tm) := hrun
    clear hrun
    have hAdd : ((⟨[("rack0", []), ("rack1", []), ("rack2", [])]⟩ :
        NodeTopologyMap).Add "rack0" x.name) =
        ⟨[("rack0", [x.name]), ("rack1", []), ("rack2", [])]⟩ := rfl
    rw [hAdd] at hrun2
    exact ensureLoop_balance (x :: rest) rest
      ⟨[("rack0", [x.name]), ("rack1", []), ("rack2", [])]⟩ _ nr tm
      (fun n hn2 => List.mem_cons_of_mem x hn2) rfl
      (by show List.Nodup ["rack0", "rack1", "rack2"]; decide)
      (fun _ => by
        intro e1 he1 e2 he2
        rcases List.mem_cons.mp he1 with rfl | he1'
        · rcases List.mem_cons.mp he2 with rfl | he2' <;> simp_all
        · rcases List.mem_cons.mp he1' with rfl | he1'' <;>
            rcases List.mem_cons.mp he2 with rfl | he2' <;> simp_all)
      hrun2

/-- C7 counterexample: on zero nodes ensureNodeRacks completes successfully
with zero racks, so "at least 3 distinct racks exist" fails for N = 0. -/
theorem C7_zero_nodes_cex :
    ensureNodeRacks [] 3 ⟨[]⟩ = some (⟨[]⟩, ⟨[]⟩) ∧
    ¬(3 ≤ ((⟨[]⟩ : NodeTopologyMap)).Labels.length) :=
  ⟨rfl, by decide⟩

/-- Concrete zoneless nodes for the C7 witness. -/
def nodesW7 : List Node := [⟨"a", []⟩, ⟨"b", []⟩, ⟨"c", []⟩, ⟨"d", []⟩]

/-- Concrete zoned nodes for the C7 witness: two zones, interleaved, for
which the run succeeds and still yields exactly 3 racks. -/
def nodesW7z : List Node :=
  [⟨"a1", [(topoZoneKey, "a")]⟩, ⟨"b1", [(topoZoneKey, "b")]⟩,
   ⟨"a2", [(topoZoneKey, "a")]⟩, ⟨"b2", [(topoZoneKey, "b")]⟩]

theorem C7_min_racks_balance_witness :
    (([("rack0", ["a", "d"]), ("rack1", ["b"]), ("rack2", ["c"])] : LabelMap).length
        = 3 ∧
      Balanced [("rack0", ["a", "d"]), ("rack1", ["b"]), ("rack2", ["c"])]) ∧
    ([("rack0", ["a1"]), ("rack1", ["b1", "b2"]), ("rack2", ["a2"])] : LabelMap).length
      = 3 := by
  have h1 := C7_min_racks_balance nodesW7 ⟨[]⟩
    ⟨[("rack0", ["a", "d"]), ("rack1", ["b"]), ("rack2", ["c"])]⟩
    ⟨[(RackTopologyKey, ["rack0", "rack1", "rack2"])]⟩
    (by decide) (by decide) rfl
  have h2 := C7_min_racks_balance nodesW7z ⟨[]⟩
    ⟨[("rack0", ["a1"]), ("rack1", ["b1", "b2"]), ("rack2", ["a2"])]⟩
    ⟨[(RackTopologyKey, ["rack0", "rack1", "rack2"])]⟩
    (by decide) (by decide) rfl
  exact ⟨⟨h1.1, h1.2.2 (by intro n hn; fin_cases hn <;> rfl)⟩, h2.1⟩

end OcsTopology
